/-
Verification of the RVA index decoder/lookup engine
(src/Il2CppDumper-CPP/src/RvaIndexLookup.cpp and its header).

The C++ class `RvaIndexLookup` is shallowly embedded as follows:
  - files are byte lists (`List Nat`, each byte < 256 in practice); a path that
    cannot be opened is modelled as `none : Option (List Nat)`;
  - the little-endian readers `ReadLe16/32/64` mirror lines 286-297 of the
    source, with the C++ integer truncation made explicit as `% 2 ^ w`;
  - `ReadFully` of `n` bytes at offset `o` from an open stream over bytes `b`
    succeeds exactly when `o + n ≤ b.length` (lines 299-302: a short read fails);
  - the mutable object state (routing table, index2 path, open stream,
    open-attempted flag, last error, total-dump-lines, single-slot cache) is the
    structure `RvaIndexLookup`; every member function becomes a function from
    and to that structure;
  - `std::upper_bound` is embedded by its contract on the validated-sorted
    sequences it is applied to (the routing table is validated sorted at load,
    a decoded block's rvas are validated sorted at decode): the first index
    whose element exceeds the probe, `upperBoundIdx`;
  - the sentinel `cachedBlockIndex_ == size_t(-1)` is modelled by
    `cachedBlock = none` (a real block index is < 2^32 so the sentinel never
    collides with one).
-/
import Mathlib

namespace RvaIdx

/-- Little-endian 16-bit read at `off` (source `ReadLe16`, lines 286-288).
Out-of-range bytes read as 0 only in the model; all uses are bounds-checked
by the callers, as in the source. -/
def ReadLe16 (l : List Nat) (off : Nat) : Nat :=
  (l.getD off 0 ||| (l.getD (off + 1) 0 <<< 8)) % 2 ^ 16

/-- Little-endian 32-bit read at `off` (source `ReadLe32`, lines 290-293). -/
def ReadLe32 (l : List Nat) (off : Nat) : Nat :=
  (l.getD off 0 ||| (l.getD (off + 1) 0 <<< 8) ||| (l.getD (off + 2) 0 <<< 16) |||
    (l.getD (off + 3) 0 <<< 24)) % 2 ^ 32

/-- Little-endian 64-bit read at `off` (source `ReadLe64`, lines 295-297). -/
def ReadLe64 (l : List Nat) (off : Nat) : Nat :=
  (ReadLe32 l off ||| (ReadLe32 l (off + 4) <<< 32)) % 2 ^ 64

/-- `std::is_sorted` with the `<` comparator: no adjacent inversion
(used on the routing table at line 76 and on decoded rvas at line 275). -/
def sortedLe : List Nat → Bool
  | [] => true
  | [_] => true
  | a :: b :: t => decide (a ≤ b) && sortedLe (b :: t)

/-- `std::upper_bound` on a sequence validated to be sorted: the first index
whose element is greater than `q`, or the length when no element is.
(Routing-table search at lines 141-143, in-block search at line 160.) -/
def upperBoundIdx : List Nat → Nat → Nat
  | [], _ => 0
  | k :: ks, q => if q < k then 0 else upperBoundIdx ks q + 1

/-- One routing-table record (header lines 22-26). -/
structure Index1Entry where
  startRva : Nat
  index2Offset : Nat
  index2Size : Nat
deriving DecidableEq, Repr

/-- Default entry used for the model's total `getD` accesses. -/
def dE : Index1Entry := ⟨0, 0, 0⟩

/-- A decoded block (header lines 28-31). -/
structure DecodedBlock where
  rvas : List Nat
  lines : List Nat
deriving DecidableEq, Repr

/-- Default block used for the model's total `getD` accesses. -/
def dB : DecodedBlock := ⟨[], []⟩

/-- The whole mutable state of a `RvaIndexLookup` object (header lines 43-54).
`index2Path = some b` means the stored path designates a readable file with
bytes `b`; `index2Open = some b` means the stream is open over bytes `b`. -/
structure RvaIndexLookup where
  index1Entries : List Index1Entry
  index2Path : Option (List Nat)
  totalDumpLines : Nat
  index2Open : Option (List Nat)
  index2OpenAttempted : Bool
  lastError : String
  cachedBlock : Option (Nat × DecodedBlock)
deriving DecidableEq, Repr

/-- The state after the reset performed at the top of `Load` (lines 20-29);
it is also the state of a freshly constructed object. -/
def resetState : RvaIndexLookup :=
  { index1Entries := [], index2Path := none, totalDumpLines := 0,
    index2Open := none, index2OpenAttempted := false, lastError := "",
    cachedBlock := none }

/-- Parse the `i`-th 24-byte index1 record (lines 64-67). -/
def parseEntry (f1 : List Nat) (i : Nat) : Index1Entry :=
  { startRva := ReadLe64 f1 (12 + 24 * i),
    index2Offset := ReadLe64 f1 (12 + 24 * i + 8),
    index2Size := ReadLe32 f1 (12 + 24 * i + 16) }

/-- The entries a structurally readable index1 file parses to (lines 56-69). -/
def parsedTable (f1 : List Nat) : List Index1Entry :=
  (List.range (ReadLe32 f1 8)).map (parseEntry f1)

/-- The index1 stage of `Load` (lines 31-81): open, 12-byte header, magic
`IDX1`, version 1/2/3, 24-byte entries (a short read anywhere fails), reject
an empty table, reject a table not sorted ascending by `startRva`. -/
def parseIndex1 (index1File : Option (List Nat)) : Except String (List Index1Entry) :=
  match index1File with
  | none => .error "Failed to open index1 file"
  | some f1 =>
    if f1.length < 12 then .error "Failed to read index1 header"
    else if ¬(f1.getD 0 0 = 73 ∧ f1.getD 1 0 = 68 ∧ f1.getD 2 0 = 88 ∧ f1.getD 3 0 = 49) then
      .error "index1 magic mismatch (expected IDX1)"
    else
      let version := ReadLe16 f1 4
      if version ≠ 1 ∧ version ≠ 2 ∧ version ≠ 3 then .error "Unsupported index1 version"
      else
        let entryCount := ReadLe32 f1 8
        if f1.length < 12 + 24 * entryCount then .error "Failed to read index1 entry"
        else
          let entries := parsedTable f1
          if entries.isEmpty then .error "index1 has no entries"
          else if ¬ sortedLe (entries.map (·.startRva)) then
            .error "index1 entries are not sorted by startRva"
          else .ok entries

/-- `EnsureIndex2Open` (lines 191-209): an already-open stream succeeds; a
previously failed attempt replays the recorded error; otherwise the stored
path is opened once and the failure, if any, is recorded. -/
def EnsureIndex2Open (st : RvaIndexLookup) : Except String Unit × RvaIndexLookup :=
  match st.index2Open with
  | some _ => (.ok (), st)
  | none =>
    if st.index2OpenAttempted then (.error st.lastError, st)
    else
      match st.index2Path with
      | some b =>
        (.ok (), { st with index2OpenAttempted := true, index2Open := some b })
      | none =>
        (.error "Failed to open index2 file",
          { st with index2OpenAttempted := true,
                    lastError := "Failed to open index2 file" })

/-- The `blockSize` bytes of index2 at `blockOffset` (the buffer read at
lines 235-241). -/
def blockBuf (b : List Nat) (e : Index1Entry) : List Nat :=
  (b.drop e.index2Offset).take e.index2Size

/-- The record-decoding loop (lines 259-273), with `i` the loop counter, `cur`
the running `currentRva` (initially the block's own `startKey`, so the `i = 0`
assignment `currentRva = startRva + addrDelta` coincides with the running-sum
step), and the remaining iteration count as the recursion fuel.  u64 overflow
of the delta chain is the explicit `% 2 ^ 64`. -/
def decodeGo (buf : List Nat) (startLine : Nat) : Nat → Nat → Nat → List Nat × List Nat
  | _, _, 0 => ([], [])
  | i, cur, k + 1 =>
    let addrDelta := ReadLe32 buf (16 + 8 * i)
    let absoluteLine := ReadLe32 buf (16 + 8 * i + 4)
    let cur2 := (cur + addrDelta) % 2 ^ 64
    let line := if i = 0 ∧ absoluteLine = 0 then startLine else absoluteLine
    let rest := decodeGo buf startLine (i + 1) cur2 k
    (cur2 :: rest.1, line :: rest.2)

/-- The cache-free body of `LoadDecodedBlock` (lines 216-218 and 229-278):
range check, minimum-size check, full read of the declared region, exact
`16 + recordCount*8 == blockSize` check, record decoding, and the
non-decreasing check on the decoded rvas. -/
def LoadDecodedBlockPure (entries : List Index1Entry) (b : List Nat)
    (blockIndex : Nat) : Except String DecodedBlock :=
  if entries.length ≤ blockIndex then .error "Block index out of range"
  else
    let e := entries.getD blockIndex dE
    if e.index2Size < 16 then .error "Corrupt block: size smaller than block header"
    else if b.length < e.index2Offset + e.index2Size then .error "Failed reading index2 block"
    else
      let buf := blockBuf b e
      let startRva := ReadLe64 buf 0
      let startLine := ReadLe32 buf 8
      let recordCount := ReadLe32 buf 12
      if 16 + recordCount * 8 ≠ e.index2Size then
        .error "Corrupt block: record count does not match block size"
      else
        let d := decodeGo buf startLine 0 startRva recordCount
        if sortedLe d.1 then .ok ⟨d.1, d.2⟩
        else .error "Corrupt block: RVAs are not sorted"

deriving instance DecidableEq for Except

/-- Result of one `LoadDecodedBlock` call: the decoded block or the error, the
object state afterwards, and how many block reads went to the file (0 when the
request was served from the cache or rejected before the read). -/
structure BlockResult where
  res : Except String DecodedBlock
  post : RvaIndexLookup
  reads : Nat
deriving DecidableEq, Repr

/-- The cache-miss path of `LoadDecodedBlock` (lines 229-283): decode from the
open stream's bytes and, on success, unconditionally replace the single cache
slot (lines 280-281). -/
def LoadDecodedBlockFresh (st : RvaIndexLookup) (blockIndex : Nat) : BlockResult :=
  match LoadDecodedBlockPure st.index1Entries (st.index2Open.getD []) blockIndex with
  | .ok d => ⟨.ok d, { st with cachedBlock := some (blockIndex, d) }, 1⟩
  | .error e => ⟨.error e, st, 1⟩

/-- `LoadDecodedBlock` (lines 211-284): range check, `EnsureIndex2Open`, then
either the cache hit (lines 224-227, no file read) or the fresh decode.
The internal `outBlock == nullptr` guard (lines 212-215) is unreachable from
the lookup, which always passes a stack block, and is not modelled. -/
def LoadDecodedBlock (st : RvaIndexLookup) (blockIndex : Nat) : BlockResult :=
  if st.index1Entries.length ≤ blockIndex then ⟨.error "Block index out of range", st, 0⟩
  else
    match EnsureIndex2Open st with
    | (.error e, st1) => ⟨.error e, st1, 0⟩
    | (.ok _, st1) =>
      match st1.cachedBlock with
      | some (ci, cb) =>
        if ci = blockIndex then ⟨.ok cb, st1, 0⟩
        else LoadDecodedBlockFresh st1 blockIndex
      | none => LoadDecodedBlockFresh st1 blockIndex

/-- The in-block floor search closure (lines 156-167): `none` when the block
is empty or every rva exceeds the query, otherwise the line paired with the
last rva that is `≤ queryRva`. -/
def floorInBlock (blk : DecodedBlock) (queryRva : Nat) : Option Nat :=
  if blk.rvas.isEmpty then none
  else if upperBoundIdx blk.rvas queryRva = 0 then none
  else some (blk.lines.getD (upperBoundIdx blk.rvas queryRva - 1) 0)

/-- Result of one `FindClosestLowerOrEqualLine` call: the returned flag, the
value written through `outLine` (`none` when the pointer was left untouched),
the object state afterwards, and the number of block reads that went to the
file. -/
structure FindResult where
  found : Bool
  outLine : Option Nat
  post : RvaIndexLookup
  reads : Nat
deriving DecidableEq, Repr

/-- `FindClosestLowerOrEqualLine` (lines 133-189).  `outNull` models calling
with `outLine == nullptr`. -/
def FindClosestLowerOrEqualLine (st : RvaIndexLookup) (queryRva : Nat)
    (outNull : Bool) : FindResult :=
  if outNull then ⟨false, none, st, 0⟩
  else
    match st.index1Entries with
    | [] => ⟨false, none, st, 0⟩
    | e0 :: _ =>
      if queryRva < e0.startRva then ⟨false, none, st, 0⟩
      else
        let ub := upperBoundIdx (st.index1Entries.map (·.startRva)) queryRva
        if ub = 0 then ⟨false, none, st, 0⟩
        else
          let blockIndex := ub - 1
          let r1 := LoadDecodedBlock st blockIndex
          match r1.res with
          | .error _ => ⟨false, none, r1.post, r1.reads⟩
          | .ok block =>
            match floorInBlock block queryRva with
            | some v => ⟨true, some v, r1.post, r1.reads⟩
            | none =>
              if blockIndex = 0 then ⟨false, none, r1.post, r1.reads⟩
              else
                let r2 := LoadDecodedBlock r1.post (blockIndex - 1)
                match r2.res with
                | .error _ => ⟨false, none, r2.post, r1.reads + r2.reads⟩
                | .ok prevBlock =>
                  match prevBlock.lines.getLast? with
                  | none => ⟨false, none, r2.post, r1.reads + r2.reads⟩
                  | some v => ⟨true, some v, r2.post, r1.reads + r2.reads⟩

/-- `Load` (lines 19-131).  The prior state is reset first (lines 20-29), so
the result never depends on `st0`; every subsequent failure returns with the
routing table and path cleared exactly as the source does on that path. -/
def Load (st0 : RvaIndexLookup) (index1File index2File : Option (List Nat)) :
    Bool × RvaIndexLookup :=
  let _ := st0
  let st := resetState
  match parseIndex1 index1File with
  | .error _ => (false, st)
  | .ok entries =>
    let st1 := { st with index1Entries := entries, index2Path := index2File }
    match EnsureIndex2Open st1 with
    | (.error _, st2) => (false, { st2 with index1Entries := [], index2Path := none })
    | (.ok _, st2) =>
      let b := st2.index2Open.getD []
      if b.length < 12 then
        (false, { st2 with index1Entries := [], index2Path := none })
      else if ¬(b.getD 0 0 = 73 ∧ b.getD 1 0 = 68 ∧ b.getD 2 0 = 88 ∧ b.getD 3 0 = 50) then
        (false, { st2 with index1Entries := [], index2Path := none })
      else
        let idx2Version := ReadLe16 b 4
        let blockCount := ReadLe32 b 8
        if idx2Version ≠ 1 ∧ idx2Version ≠ 2 ∧ idx2Version ≠ 3 then
          (false, { st2 with index1Entries := [], index2Path := none })
        else if 2 ≤ idx2Version then
          if b.length < 16 then
            (false, { st2 with index1Entries := [], index2Path := none })
          else
            let st3 := { st2 with totalDumpLines := ReadLe32 b 12 }
            if blockCount ≠ entries.length then
              (false, { st3 with index1Entries := [], index2Path := none })
            else (true, st3)
        else
          if blockCount ≠ entries.length then
            (false, { st2 with index1Entries := [], index2Path := none })
          else (true, st2)

/-- `GetTotalDumpLines` (header line 19). -/
def GetTotalDumpLines (st : RvaIndexLookup) : Nat := st.totalDumpLines

/-- The single-slot cache is coherent: whatever it holds is exactly what a
fresh decode of that block from the open stream would produce.  Every state
reachable through the public operations satisfies this. -/
def CacheOK (st : RvaIndexLookup) : Prop :=
  match st.cachedBlock, st.index2Open with
  | none, _ => True
  | some _, none => False
  | some (i, d), some b => LoadDecodedBlockPure st.index1Entries b i = Except.ok d

/-- The (rva, line) pairs of one decoded block. -/
def blockPairs (d : DecodedBlock) : List (Nat × Nat) := d.rvas.zip d.lines

/-- All (rva, line) pairs stored across a list of decoded blocks. -/
def allPairs : List DecodedBlock → List (Nat × Nat)
  | [] => []
  | d :: rest => blockPairs d ++ allPairs rest

/-- The cache-free functional core of the lookup (lines 133-189 with the cache
dimension removed): what `FindClosestLowerOrEqualLine` computes from the
routing table and the index2 bytes alone. -/
def findPure (entries : List Index1Entry) (b : List Nat) (q : Nat) : Bool × Option Nat :=
  match entries with
  | [] => (false, none)
  | e0 :: _ =>
    if q < e0.startRva then (false, none)
    else
      let ub := upperBoundIdx (entries.map (·.startRva)) q
      if ub = 0 then (false, none)
      else
        let j := ub - 1
        match LoadDecodedBlockPure entries b j with
        | .error _ => (false, none)
        | .ok blk =>
          match floorInBlock blk q with
          | some v => (true, some v)
          | none =>
            if j = 0 then (false, none)
            else
              match LoadDecodedBlockPure entries b (j - 1) with
              | .error _ => (false, none)
              | .ok prev =>
                match prev.lines.getLast? with
                | none => (false, none)
                | some v => (true, some v)

/-- The index1 header parses and all declared entries are present: the
precondition for "the parsed routing table" to be meaningful. -/
def index1HeaderOk (f1 : List Nat) : Prop :=
  12 ≤ f1.length ∧
  (f1.getD 0 0 = 73 ∧ f1.getD 1 0 = 68 ∧ f1.getD 2 0 = 88 ∧ f1.getD 3 0 = 49) ∧
  (ReadLe16 f1 4 = 1 ∨ ReadLe16 f1 4 = 2 ∨ ReadLe16 f1 4 = 3) ∧
  12 + 24 * ReadLe32 f1 8 ≤ f1.length

/-- `blocks` are the successful decodes of every routing entry, each non-empty,
with each block's rvas lying in `[its startRva, next startRva)`.  This is the
coverage discipline the two-level index needs for the routed lookup to be the
global floor; `Load` does not check it (it cannot: it never reads block
contents), which is what claim C1 misses. -/
def CoveredBlocks (entries : List Index1Entry) (b : List Nat)
    (blocks : List DecodedBlock) : Prop :=
  blocks.length = entries.length ∧
  (∀ i, i < entries.length → LoadDecodedBlockPure entries b i = Except.ok (blocks.getD i dB)) ∧
  (∀ i, i < entries.length → (blocks.getD i dB).rvas ≠ []) ∧
  (∀ i, i < entries.length → ∀ r ∈ (blocks.getD i dB).rvas, (entries.getD i dE).startRva ≤ r) ∧
  (∀ i, i + 1 < entries.length → ∀ r ∈ (blocks.getD i dB).rvas,
    r < (entries.getD (i + 1) dE).startRva)

/-! Concrete index files used by the witnesses and counterexamples. -/

/-- A well-formed pair: two blocks, keys 100, 200 (values 10, 20; the first
record exercises the rawValue-0-means-startValue rule) and 1005, 1105
(values 30, 40), routed at startRvas 100 and 1000 (so queries in
[1000, 1005) exercise the boundary fallback). -/
def goodI1 : List Nat :=
  [73, 68, 88, 49, 1, 0, 0, 0, 2, 0, 0, 0] ++
  [100, 0, 0, 0, 0, 0, 0, 0, 12, 0, 0, 0, 0, 0, 0, 0, 32, 0, 0, 0, 0, 0, 0, 0] ++
  [232, 3, 0, 0, 0, 0, 0, 0, 44, 0, 0, 0, 0, 0, 0, 0, 32, 0, 0, 0, 0, 0, 0, 0]

/-- Index2 bytes paired with `goodI1`. -/
def goodI2 : List Nat :=
  [73, 68, 88, 50, 1, 0, 0, 0, 2, 0, 0, 0] ++
  [100, 0, 0, 0, 0, 0, 0, 0, 10, 0, 0, 0, 2, 0, 0, 0,
   0, 0, 0, 0, 0, 0, 0, 0, 100, 0, 0, 0, 20, 0, 0, 0] ++
  [232, 3, 0, 0, 0, 0, 0, 0, 30, 0, 0, 0, 2, 0, 0, 0,
   5, 0, 0, 0, 30, 0, 0, 0, 100, 0, 0, 0, 40, 0, 0, 0]

/-- The engine state after loading the good pair. -/
def loadedGood : RvaIndexLookup := (Load resetState (some goodI1) (some goodI2)).2

/-- The decoded blocks of the good pair. -/
def goodBlocks : List DecodedBlock := [⟨[100, 200], [10, 20]⟩, ⟨[1005, 1105], [30, 40]⟩]

/-- C1 counterexample index1: routing startRvas 0 and 100, both blocks 24
bytes. -/
def c1I1 : List Nat :=
  [73, 68, 88, 49, 1, 0, 0, 0, 2, 0, 0, 0] ++
  [0, 0, 0, 0, 0, 0, 0, 0, 12, 0, 0, 0, 0, 0, 0, 0, 24, 0, 0, 0, 0, 0, 0, 0] ++
  [100, 0, 0, 0, 0, 0, 0, 0, 36, 0, 0, 0, 0, 0, 0, 0, 24, 0, 0, 0, 0, 0, 0, 0]

/-- C1 counterexample index2: block 0 holds (0 ↦ 1); block 1, routed at
startRva 100, holds the pair (50 ↦ 2) — below its own routing key.  `Load`
accepts the pair and every block decodes with sorted keys, yet the lookup for
the stored key 50 routes to block 0 and answers 1, not 2. -/
def c1I2 : List Nat :=
  [73, 68, 88, 50, 1, 0, 0, 0, 2, 0, 0, 0] ++
  [0, 0, 0, 0, 0, 0, 0, 0, 1, 0, 0, 0, 1, 0, 0, 0, 0, 0, 0, 0, 1, 0, 0, 0] ++
  [50, 0, 0, 0, 0, 0, 0, 0, 2, 0, 0, 0, 1, 0, 0, 0, 0, 0, 0, 0, 2, 0, 0, 0]

/-- State after loading the C1 counterexample pair. -/
def loadedC1 : RvaIndexLookup := (Load resetState (some c1I1) (some c1I2)).2

/-- C2 counterexample index1: routing startRvas 0 (an empty 16-byte block) and
50 (a 24-byte block). -/
def c2I1 : List Nat :=
  [73, 68, 88, 49, 1, 0, 0, 0, 2, 0, 0, 0] ++
  [0, 0, 0, 0, 0, 0, 0, 0, 12, 0, 0, 0, 0, 0, 0, 0, 16, 0, 0, 0, 0, 0, 0, 0] ++
  [50, 0, 0, 0, 0, 0, 0, 0, 28, 0, 0, 0, 0, 0, 0, 0, 24, 0, 0, 0, 0, 0, 0, 0]

/-- C2 counterexample index2: block 0 decodes to no records, block 1 holds
only (100 ↦ 5).  The query 60 routes to block 1, every key there exceeds 60,
and the previous block has no last value, so the lookup misses. -/
def c2I2 : List Nat :=
  [73, 68, 88, 50, 1, 0, 0, 0, 2, 0, 0, 0] ++
  [0, 0, 0, 0, 0, 0, 0, 0, 9, 0, 0, 0, 0, 0, 0, 0] ++
  [100, 0, 0, 0, 0, 0, 0, 0, 5, 0, 0, 0, 1, 0, 0, 0, 0, 0, 0, 0, 5, 0, 0, 0]

/-- State after loading the C2 counterexample pair. -/
def loadedC2 : RvaIndexLookup := (Load resetState (some c2I1) (some c2I2)).2

/-- A version-2 pair: same two blocks as the good pair, behind a 16-byte
index2 header declaring total-dump-lines 42. -/
def g2I1 : List Nat :=
  [73, 68, 88, 49, 1, 0, 0, 0, 2, 0, 0, 0] ++
  [100, 0, 0, 0, 0, 0, 0, 0, 16, 0, 0, 0, 0, 0, 0, 0, 32, 0, 0, 0, 0, 0, 0, 0] ++
  [232, 3, 0, 0, 0, 0, 0, 0, 48, 0, 0, 0, 0, 0, 0, 0, 32, 0, 0, 0, 0, 0, 0, 0]

/-- Index2 bytes paired with `g2I1` (version 2, total-dump-lines 42). -/
def g2I2 : List Nat :=
  [73, 68, 88, 50, 2, 0, 0, 0, 2, 0, 0, 0, 42, 0, 0, 0] ++
  [100, 0, 0, 0, 0, 0, 0, 0, 10, 0, 0, 0, 2, 0, 0, 0,
   0, 0, 0, 0, 0, 0, 0, 0, 100, 0, 0, 0, 20, 0, 0, 0] ++
  [232, 3, 0, 0, 0, 0, 0, 0, 30, 0, 0, 0, 2, 0, 0, 0,
   5, 0, 0, 0, 30, 0, 0, 0, 100, 0, 0, 0, 40, 0, 0, 0]

/-- The engine state after loading the version-2 pair. -/
def loadedG2 : RvaIndexLookup := (Load resetState (some g2I1) (some g2I2)).2

/-- C3 counterexample index1: a single valid entry. -/
def c3I1 : List Nat :=
  [73, 68, 88, 49, 1, 0, 0, 0, 1, 0, 0, 0] ++
  [0, 0, 0, 0, 0, 0, 0, 0, 16, 0, 0, 0, 0, 0, 0, 0, 24, 0, 0, 0, 0, 0, 0, 0]

/-- C3 counterexample index2: version 2 header declaring total-dump-lines 7
but block count 2, mismatching the single routing entry; `Load` fails after
having already stored 7. -/
def c3I2 : List Nat := [73, 68, 88, 50, 2, 0, 0, 0, 2, 0, 0, 0, 7, 0, 0, 0]

/-! ### Helper lemmas on lists, `sortedLe` and `upperBoundIdx` -/

theorem getD_mem {l : List Nat} {i : Nat} (h : i < l.length) : l.getD i 0 ∈ l := by
  rw [List.getD_eq_getElem l 0 h]
  exact List.getElem_mem h

theorem mem_getD {l : List Nat} {a : Nat} (h : a ∈ l) :
    ∃ i, i < l.length ∧ l.getD i 0 = a := by
  obtain ⟨⟨i, hi⟩, rfl⟩ := List.mem_iff_get.mp h
  exact ⟨i, hi, List.getD_eq_getElem l 0 hi⟩

theorem sortedLe_chain : ∀ {l : List Nat}, sortedLe l = true ↔ List.Chain' (· ≤ ·) l
  | [] => by simp [sortedLe]
  | [a] => by simp [sortedLe]
  | a :: b :: t => by
    rw [List.chain'_cons, ← sortedLe_chain (l := b :: t)]
    simp [sortedLe]

theorem sortedLe_pairwise {l : List Nat} :
    sortedLe l = true ↔ List.Pairwise (· ≤ ·) l := by
  rw [sortedLe_chain, List.chain'_iff_pairwise]

theorem sortedLe_mono {l : List Nat} (hs : sortedLe l = true) {i j : Nat}
    (hij : i ≤ j) (hj : j < l.length) : l.getD i 0 ≤ l.getD j 0 := by
  rcases Nat.eq_or_lt_of_le hij with rfl | hlt
  · exact Nat.le_refl _
  · have hi : i < l.length := Nat.lt_trans hlt hj
    rw [List.getD_eq_getElem l 0 hi, List.getD_eq_getElem l 0 hj]
    exact List.pairwise_iff_getElem.mp (sortedLe_pairwise.mp hs) i j hi hj hlt

theorem ub_le_length : ∀ (l : List Nat) (q : Nat), upperBoundIdx l q ≤ l.length
  | [], _ => Nat.le_refl 0
  | k :: ks, q => by
    by_cases h : q < k
    · simp [upperBoundIdx, h]
    · simpa [upperBoundIdx, h] using ub_le_length ks q

theorem getD_le_of_lt_ub : ∀ {l : List Nat} {q i : Nat},
    i < upperBoundIdx l q → l.getD i 0 ≤ q
  | [], q, i => by simp [upperBoundIdx]
  | k :: ks, q, i => by
    by_cases h : q < k
    · simp [upperBoundIdx, h]
    · cases i with
      | zero => intro _; simpa using Nat.le_of_not_lt h
      | succ j =>
        intro hj
        rw [List.getD_cons_succ]
        refine getD_le_of_lt_ub (l := ks) (q := q) (i := j) ?_
        simpa [upperBoundIdx, h] using hj

theorem q_lt_getD_ub : ∀ {l : List Nat} (q : Nat),
    upperBoundIdx l q < l.length → q < l.getD (upperBoundIdx l q) 0
  | [], q => by simp [upperBoundIdx]
  | k :: ks, q => by
    by_cases h : q < k
    · simp [upperBoundIdx, h]
    · intro hlen
      have hlen' : upperBoundIdx ks q < ks.length := by
        simpa [upperBoundIdx, h, Nat.succ_lt_succ_iff] using hlen
      simpa [upperBoundIdx, h] using q_lt_getD_ub (l := ks) q hlen'

theorem lt_of_ub_le {l : List Nat} {q : Nat} (hs : sortedLe l = true) {i : Nat}
    (h : upperBoundIdx l q ≤ i) (hi : i < l.length) : q < l.getD i 0 := by
  have hub : upperBoundIdx l q < l.length := Nat.lt_of_le_of_lt h hi
  exact Nat.lt_of_lt_of_le (q_lt_getD_ub q hub) (sortedLe_mono hs h hi)

theorem lt_ub_of_getD_le {l : List Nat} {q i : Nat} (hs : sortedLe l = true)
    (hi : i < l.length) (h : l.getD i 0 ≤ q) : i < upperBoundIdx l q := by
  by_contra hc
  exact absurd h (Nat.not_le_of_lt (lt_of_ub_le hs (Nat.le_of_not_lt hc) hi))

theorem ub_pos_of_head_le {k : Nat} {ks : List Nat} {q : Nat} (h : ¬ q < k) :
    upperBoundIdx (k :: ks) q ≠ 0 := by
  simp [upperBoundIdx, h]

theorem ub_eq_zero_of_forall {l : List Nat} {q : Nat} (h : ∀ r ∈ l, q < r) :
    upperBoundIdx l q = 0 := by
  cases l with
  | nil => rfl
  | cons k ks => simp [upperBoundIdx, h k (List.mem_cons_self k ks)]

theorem all_gt_of_ub_zero {l : List Nat} {q : Nat} (hs : sortedLe l = true)
    (h : upperBoundIdx l q = 0) : ∀ r ∈ l, q < r := by
  intro r hr
  obtain ⟨i, hi, rfl⟩ := mem_getD hr
  exact lt_of_ub_le hs (h ▸ Nat.zero_le i) hi

theorem getLast?_eq_getD {l : List Nat} (h : l ≠ []) :
    l.getLast? = some (l.getD (l.length - 1) 0) := by
  have hpos : 0 < l.length := List.length_pos.mpr h
  rw [List.getLast?_eq_getLast l h, List.getLast_eq_getElem,
    List.getD_eq_getElem l 0 (by omega)]

theorem zip_getD_mem : ∀ (l1 l2 : List Nat) (i : Nat), i < l1.length →
    i < l2.length → (l1.getD i 0, l2.getD i 0) ∈ l1.zip l2
  | [], _, i, h1, _ => absurd h1 (by simp)
  | _ :: _, [], i, _, h2 => absurd h2 (by simp)
  | a :: t1, b :: t2, 0, _, _ => by simp
  | a :: t1, b :: t2, i + 1, h1, h2 => by
    rw [List.getD_cons_succ, List.getD_cons_succ, List.zip_cons_cons]
    exact List.mem_cons_of_mem _
      (zip_getD_mem t1 t2 i (by simpa using h1) (by simpa using h2))

theorem mem_zip_getD : ∀ (l1 l2 : List Nat) (p : Nat × Nat), p ∈ l1.zip l2 →
    ∃ i, i < l1.length ∧ i < l2.length ∧ p.1 = l1.getD i 0 ∧ p.2 = l2.getD i 0
  | [], _, p, h => absurd h (by simp)
  | _ :: _, [], p, h => absurd h (by simp)
  | a :: t1, b :: t2, p, h => by
    rw [List.zip_cons_cons, List.mem_cons] at h
    rcases h with rfl | h
    · exact ⟨0, by simp, by simp, by simp, by simp⟩
    · obtain ⟨i, hi1, hi2, hp1, hp2⟩ := mem_zip_getD t1 t2 p h
      exact ⟨i + 1, by simpa using Nat.succ_lt_succ hi1,
        by simpa using Nat.succ_lt_succ hi2, by simpa using hp1, by simpa using hp2⟩

theorem mem_allPairs : ∀ (blocks : List DecodedBlock) (p : Nat × Nat),
    p ∈ allPairs blocks ↔ ∃ j, j < blocks.length ∧ p ∈ blockPairs (blocks.getD j dB)
  | [], p => by simp [allPairs]
  | d :: rest, p => by
    rw [allPairs, List.mem_append, mem_allPairs rest p]
    constructor
    · rintro (hp | ⟨j, hj, hp⟩)
      · exact ⟨0, Nat.succ_pos _, by simpa using hp⟩
      · exact ⟨j + 1, Nat.succ_lt_succ hj, by simpa using hp⟩
    · rintro ⟨j, hj, hp⟩
      cases j with
      | zero => exact Or.inl (by simpa using hp)
      | succ j' =>
        exact Or.inr ⟨j', Nat.lt_of_succ_lt_succ hj, by simpa using hp⟩

/-! ### The record-decoding loop -/

theorem decodeGo_length (buf : List Nat) (s : Nat) : ∀ (k i c : Nat),
    (decodeGo buf s i c k).1.length = k ∧ (decodeGo buf s i c k).2.length = k
  | 0, _, _ => ⟨rfl, rfl⟩
  | k + 1, i, c => by
    have ih := decodeGo_length buf s k (i + 1)
      ((c + ReadLe32 buf (16 + 8 * i)) % 2 ^ 64)
    simpa [decodeGo] using ih

theorem decodeGo_rvas_head (buf : List Nat) (s : Nat) (i c k : Nat) :
    (decodeGo buf s i c (k + 1)).1.getD 0 0 = (c + ReadLe32 buf (16 + 8 * i)) % 2 ^ 64 := by
  simp [decodeGo]

theorem decodeGo_rvas_succ (buf : List Nat) (s : Nat) : ∀ (k i c j : Nat), j + 1 < k →
    (decodeGo buf s i c k).1.getD (j + 1) 0 =
      ((decodeGo buf s i c k).1.getD j 0 + ReadLe32 buf (16 + 8 * (i + j + 1))) % 2 ^ 64
  | 0, _, _, _, h => absurd h (by omega)
  | k + 1, i, c, j, h => by
    cases j with
    | zero =>
      have hk : 0 < k := by omega
      obtain ⟨k', rfl⟩ := Nat.exists_eq_succ_of_ne_zero (Nat.pos_iff_ne_zero.mp hk)
      show (decodeGo buf s i c (k' + 1 + 1)).1.getD 1 0 = _
      rw [show (decodeGo buf s i c (k' + 1 + 1)).1 =
        ((c + ReadLe32 buf (16 + 8 * i)) % 2 ^ 64) ::
          (decodeGo buf s (i + 1) ((c + ReadLe32 buf (16 + 8 * i)) % 2 ^ 64) (k' + 1)).1
        from rfl]
      rw [List.getD_cons_succ, List.getD_cons_zero, decodeGo_rvas_head]
    | succ j' =>
      have hrec := decodeGo_rvas_succ buf s k (i + 1)
        ((c + ReadLe32 buf (16 + 8 * i)) % 2 ^ 64) j' (by omega)
      show (decodeGo buf s i c (k + 1)).1.getD (j' + 1 + 1) 0 = _
      rw [show (decodeGo buf s i c (k + 1)).1 =
        ((c + ReadLe32 buf (16 + 8 * i)) % 2 ^ 64) ::
          (decodeGo buf s (i + 1) ((c + ReadLe32 buf (16 + 8 * i)) % 2 ^ 64) k).1
        from rfl]
      rw [List.getD_cons_succ, List.getD_cons_succ, hrec]
      have he : i + 1 + j' + 1 = i + (j' + 1) + 1 := by omega
      rw [he]

theorem decodeGo_lines_zero (buf : List Nat) (s : Nat) (c k : Nat) :
    (decodeGo buf s 0 c (k + 1)).2.getD 0 0 =
      if ReadLe32 buf 20 = 0 then s else ReadLe32 buf 20 := by
  by_cases h : ReadLe32 buf 20 = 0 <;> simp [decodeGo, h]

theorem decodeGo_lines_pos (buf : List Nat) (s : Nat) : ∀ (k i c j : Nat), j < k →
    1 ≤ i + j →
    (decodeGo buf s i c k).2.getD j 0 = ReadLe32 buf (16 + 8 * (i + j) + 4)
  | 0, _, _, _, h, _ => absurd h (by omega)
  | k + 1, i, c, j, h, hij => by
    cases j with
    | zero =>
      have hi : i ≠ 0 := by omega
      simp [decodeGo, hi]
    | succ j' =>
      have hrec := decodeGo_lines_pos buf s k (i + 1)
        ((c + ReadLe32 buf (16 + 8 * i)) % 2 ^ 64) j' (by omega) (by omega)
      show (decodeGo buf s i c (k + 1)).2.getD (j' + 1) 0 = _
      rw [show (decodeGo buf s i c (k + 1)).2 =
        (if i = 0 ∧ ReadLe32 buf (16 + 8 * i + 4) = 0 then s
          else ReadLe32 buf (16 + 8 * i + 4)) ::
          (decodeGo buf s (i + 1) ((c + ReadLe32 buf (16 + 8 * i)) % 2 ^ 64) k).2
        from rfl]
      rw [List.getD_cons_succ, hrec]
      congr 2
      omega

/-! ### Structure of a successful block decode -/

/-- The full parameter pack a block decode works from. -/
theorem pure_ok_elim {entries : List Index1Entry} {b : List Nat} {i : Nat}
    {d : DecodedBlock} (h : LoadDecodedBlockPure entries b i = Except.ok d) :
    i < entries.length ∧
    16 ≤ (entries.getD i dE).index2Size ∧
    (entries.getD i dE).index2Offset + (entries.getD i dE).index2Size ≤ b.length ∧
    16 + ReadLe32 (blockBuf b (entries.getD i dE)) 12 * 8 = (entries.getD i dE).index2Size ∧
    d.rvas = (decodeGo (blockBuf b (entries.getD i dE))
      (ReadLe32 (blockBuf b (entries.getD i dE)) 8) 0
      (ReadLe64 (blockBuf b (entries.getD i dE)) 0)
      (ReadLe32 (blockBuf b (entries.getD i dE)) 12)).1 ∧
    d.lines = (decodeGo (blockBuf b (entries.getD i dE))
      (ReadLe32 (blockBuf b (entries.getD i dE)) 8) 0
      (ReadLe64 (blockBuf b (entries.getD i dE)) 0)
      (ReadLe32 (blockBuf b (entries.getD i dE)) 12)).2 ∧
    sortedLe d.rvas = true := by
  simp only [LoadDecodedBlockPure] at h
  split_ifs at h with h1 h2 h3 h4 h5
  have hd := (Except.ok.inj h).symm
  refine ⟨by omega, by omega, by omega, by omega, ?_, ?_, ?_⟩
  · rw [hd]
  · rw [hd]
  · rw [hd]; simpa [List.getD] using h5

/-- Lengths of a successfully decoded block: both sequences have exactly
`recordCount` elements. -/
theorem pure_ok_lengths {entries : List Index1Entry} {b : List Nat} {i : Nat}
    {d : DecodedBlock} (h : LoadDecodedBlockPure entries b i = Except.ok d) :
    d.rvas.length = ReadLe32 (blockBuf b (entries.getD i dE)) 12 ∧
    d.lines.length = ReadLe32 (blockBuf b (entries.getD i dE)) 12 := by
  obtain ⟨-, -, -, -, hr, hl, -⟩ := pure_ok_elim h
  rw [hr, hl]
  exact decodeGo_length _ _ _ _ _

theorem pure_ok_same_length {entries : List Index1Entry} {b : List Nat} {i : Nat}
    {d : DecodedBlock} (h : LoadDecodedBlockPure entries b i = Except.ok d) :
    d.rvas.length = d.lines.length := by
  obtain ⟨h1, h2⟩ := pure_ok_lengths h
  rw [h1, h2]

theorem pure_ok_sorted {entries : List Index1Entry} {b : List Nat} {i : Nat}
    {d : DecodedBlock} (h : LoadDecodedBlockPure entries b i = Except.ok d) :
    sortedLe d.rvas = true :=
  (pure_ok_elim h).2.2.2.2.2.2

/-! ### The open-stream, cache and lookup state machinery -/

theorem ensure_of_open {st : RvaIndexLookup} {b : List Nat}
    (ho : st.index2Open = some b) : EnsureIndex2Open st = (Except.ok (), st) := by
  rw [EnsureIndex2Open, ho]

theorem loadBlockFresh_spec {st : RvaIndexLookup} {b : List Nat}
    (ho : st.index2Open = some b) (hc : CacheOK st) (i : Nat) :
    (LoadDecodedBlockFresh st i).res = LoadDecodedBlockPure st.index1Entries b i ∧
    (LoadDecodedBlockFresh st i).post.index1Entries = st.index1Entries ∧
    (LoadDecodedBlockFresh st i).post.index2Open = some b ∧
    (LoadDecodedBlockFresh st i).post.totalDumpLines = st.totalDumpLines ∧
    CacheOK (LoadDecodedBlockFresh st i).post := by
  rw [LoadDecodedBlockFresh, ho]
  rcases hp : LoadDecodedBlockPure st.index1Entries b i with msg | d
  · rw [Option.getD_some, hp]
    exact ⟨rfl, rfl, ho, rfl, hc⟩
  · rw [Option.getD_some, hp]
    exact ⟨rfl, rfl, rfl, rfl, hp⟩

theorem loadBlock_spec {st : RvaIndexLookup} {b : List Nat}
    (ho : st.index2Open = some b) (hc : CacheOK st) (i : Nat) :
    (LoadDecodedBlock st i).res = LoadDecodedBlockPure st.index1Entries b i ∧
    (LoadDecodedBlock st i).post.index1Entries = st.index1Entries ∧
    (LoadDecodedBlock st i).post.index2Open = some b ∧
    (LoadDecodedBlock st i).post.totalDumpLines = st.totalDumpLines ∧
    CacheOK (LoadDecodedBlock st i).post := by
  by_cases hr : st.index1Entries.length ≤ i
  · rw [LoadDecodedBlock, if_pos hr, LoadDecodedBlockPure, if_pos hr]
    exact ⟨rfl, rfl, ho, rfl, hc⟩
  · rw [LoadDecodedBlock, if_neg hr, ensure_of_open ho]
    dsimp only
    rcases hcb : st.cachedBlock with _ | ⟨ci, cb⟩
    · exact loadBlockFresh_spec ho hc i
    · have hp : LoadDecodedBlockPure st.index1Entries b ci = Except.ok cb := by
        have h2 := hc
        simp only [CacheOK, hcb, ho] at h2
        exact h2
      dsimp only
      by_cases hci : ci = i
      · subst hci
        rw [if_pos rfl]
        exact ⟨hp.symm, rfl, ho, rfl, hc⟩
      · rw [if_neg hci]
        exact loadBlockFresh_spec ho hc i

theorem find_spec {st : RvaIndexLookup} {b : List Nat}
    (ho : st.index2Open = some b) (hc : CacheOK st) (q : Nat) :
    (FindClosestLowerOrEqualLine st q false).found = (findPure st.index1Entries b q).1 ∧
    (FindClosestLowerOrEqualLine st q false).outLine = (findPure st.index1Entries b q).2 ∧
    (FindClosestLowerOrEqualLine st q false).post.index1Entries = st.index1Entries ∧
    (FindClosestLowerOrEqualLine st q false).post.index2Open = some b ∧
    (FindClosestLowerOrEqualLine st q false).post.totalDumpLines = st.totalDumpLines ∧
    CacheOK (FindClosestLowerOrEqualLine st q false).post := by
  rw [FindClosestLowerOrEqualLine, findPure.eq_def]
  rcases hE : st.index1Entries with _ | ⟨e0, rest⟩
  · exact ⟨rfl, rfl, hE, ho, rfl, hc⟩
  · simp only [if_neg Bool.false_ne_true]
    by_cases hq : q < e0.startRva
    · rw [if_pos hq, if_pos hq]
      exact ⟨rfl, rfl, hE, ho, rfl, hc⟩
    · rw [if_neg hq, if_neg hq]
      by_cases hu : upperBoundIdx ((e0 :: rest).map (·.startRva)) q = 0
      · rw [if_pos hu, if_pos hu]
        exact ⟨rfl, rfl, hE, ho, rfl, hc⟩
      · rw [if_neg hu, if_neg hu]
        obtain ⟨hres1, hent1, ho1, htdl1, hc1⟩ := loadBlock_spec ho hc
          (upperBoundIdx ((e0 :: rest).map (·.startRva)) q - 1)
        rw [hE] at hres1 hent1
        rw [hres1]
        rcases hp1 : LoadDecodedBlockPure (e0 :: rest) b
            (upperBoundIdx ((e0 :: rest).map (·.startRva)) q - 1) with msg | blk
        · exact ⟨rfl, rfl, hent1, ho1, htdl1, hc1⟩
        · dsimp only
          rcases hf : floorInBlock blk q with _ | v
          · by_cases h0 : upperBoundIdx ((e0 :: rest).map (·.startRva)) q - 1 = 0
            · rw [if_pos h0, if_pos h0]
              exact ⟨rfl, rfl, hent1, ho1, htdl1, hc1⟩
            · rw [if_neg h0, if_neg h0]
              obtain ⟨hres2, hent2, ho2, htdl2, hc2⟩ := loadBlock_spec ho1 hc1
                (upperBoundIdx ((e0 :: rest).map (·.startRva)) q - 1 - 1)
              rw [hent1] at hres2
              rw [hres2]
              rcases hp2 : LoadDecodedBlockPure (e0 :: rest) b
                  (upperBoundIdx ((e0 :: rest).map (·.startRva)) q - 1 - 1) with m2 | prev
              · exact ⟨rfl, rfl, hent2.trans hent1, ho2, htdl2.trans htdl1, hc2⟩
              · dsimp only
                rcases hl : prev.lines.getLast? with _ | v
                · exact ⟨rfl, rfl, hent2.trans hent1, ho2, htdl2.trans htdl1, hc2⟩
                · exact ⟨rfl, rfl, hent2.trans hent1, ho2, htdl2.trans htdl1, hc2⟩
          · exact ⟨rfl, rfl, hent1, ho1, htdl1, hc1⟩

/-! ### The in-block floor search -/

theorem floorInBlock_some {d : DecodedBlock} {q v : Nat}
    (hs : sortedLe d.rvas = true) (h : floorInBlock d q = some v) :
    ∃ i, i < d.rvas.length ∧ d.rvas.getD i 0 ≤ q ∧ v = d.lines.getD i 0 ∧
      ∀ i2, i2 < d.rvas.length → d.rvas.getD i2 0 ≤ q → i2 ≤ i := by
  rw [floorInBlock] at h
  split_ifs at h with h1 h2
  have hub : upperBoundIdx d.rvas q ≤ d.rvas.length := ub_le_length _ _
  have hpos : 0 < upperBoundIdx d.rvas q := Nat.pos_of_ne_zero h2
  refine ⟨upperBoundIdx d.rvas q - 1, by omega, ?_, ?_, ?_⟩
  · exact getD_le_of_lt_ub (by omega)
  · exact (Option.some.inj h).symm
  · intro i2 hi2 hle
    have := lt_ub_of_getD_le hs hi2 hle
    omega

theorem floorInBlock_none {d : DecodedBlock} {q : Nat}
    (hs : sortedLe d.rvas = true) (h : floorInBlock d q = none) :
    ∀ r ∈ d.rvas, q < r := by
  rw [floorInBlock] at h
  split_ifs at h with h1 h2
  · intro r hr
    have h3 : d.rvas = [] := by simpa [List.isEmpty_iff] using h1
    rw [h3] at hr
    simp at hr
  · exact all_gt_of_ub_zero hs h2

/-- `getD` through `map (·.startRva)`. -/
theorem getD_map_startRva (entries : List Index1Entry) (m : Nat)
    (h : m < entries.length) :
    (entries.map (·.startRva)).getD m 0 = (entries.getD m dE).startRva := by
  rw [List.getD_eq_getElem _ 0 (by simpa using h), List.getD_eq_getElem _ dE h,
    List.getElem_map]

/-- A pair of a block gives an index into its two sequences. -/
theorem blockPairs_elim {d : DecodedBlock} {p : Nat × Nat} (h : p ∈ blockPairs d) :
    ∃ i, i < d.rvas.length ∧ i < d.lines.length ∧
      p.1 = d.rvas.getD i 0 ∧ p.2 = d.lines.getD i 0 :=
  mem_zip_getD d.rvas d.lines p h

/-! ### Global floor correctness of the cache-free lookup -/

/-- Under the coverage discipline, the routed lookup computes the global
floor: it misses exactly when every stored key exceeds the query, and
otherwise returns a value paired with the greatest stored key `≤ q`. -/
theorem findPure_floor (entries : List Index1Entry) (b : List Nat)
    (blocks : List DecodedBlock) (q : Nat) (hne : entries ≠ [])
    (hsort : sortedLe (entries.map (·.startRva)) = true)
    (hcov : CoveredBlocks entries b blocks) :
    ((∀ p ∈ allPairs blocks, q < p.1) → findPure entries b q = (false, none)) ∧
    (∀ p0 ∈ allPairs blocks, p0.1 ≤ q →
      ∃ k v, findPure entries b q = (true, some v) ∧ (k, v) ∈ allPairs blocks ∧
        k ≤ q ∧ ∀ p2 ∈ allPairs blocks, p2.1 ≤ q → p2.1 ≤ k) := by
  obtain ⟨hlen, hdec, hbne, hlow, hhigh⟩ := hcov
  have hmono : ∀ m1 m2, m1 ≤ m2 → m2 < entries.length →
      (entries.getD m1 dE).startRva ≤ (entries.getD m2 dE).startRva := by
    intro m1 m2 h12 h2
    have hl : m2 < (entries.map (·.startRva)).length := by simpa using h2
    have h3 := sortedLe_mono hsort h12 hl
    rwa [getD_map_startRva entries m1 (by omega), getD_map_startRva entries m2 h2] at h3
  have hpair : ∀ p : Nat × Nat, p ∈ allPairs blocks → ∃ m i2,
      m < entries.length ∧ i2 < (blocks.getD m dB).rvas.length ∧
      i2 < (blocks.getD m dB).lines.length ∧
      p.1 = (blocks.getD m dB).rvas.getD i2 0 ∧
      p.2 = (blocks.getD m dB).lines.getD i2 0 := by
    intro p hp
    obtain ⟨m, hm, hpm⟩ := (mem_allPairs blocks p).mp hp
    obtain ⟨i2, ha, hb2, hc2, hd2⟩ := blockPairs_elim hpm
    exact ⟨m, i2, by omega, ha, hb2, hc2, hd2⟩
  obtain ⟨e0, rest, rfl⟩ : ∃ e t, entries = e :: t := by
    rcases entries with _ | ⟨e, t⟩
    · exact absurd rfl hne
    · exact ⟨e, t, rfl⟩
  have hq0 : ∀ m, m < (e0 :: rest).length →
      e0.startRva ≤ ((e0 :: rest).getD m dE).startRva := by
    intro m hm
    have h3 := hmono 0 m (Nat.zero_le m) hm
    simpa using h3
  rw [findPure.eq_def]
  dsimp only
  by_cases hq : q < e0.startRva
  · rw [if_pos hq]
    refine ⟨fun _ => rfl, ?_⟩
    intro p0 hp0 hle
    exfalso
    obtain ⟨m, i2, hm, hi2r, hi2l, hfst, -⟩ := hpair p0 hp0
    have h1 : ((e0 :: rest).getD m dE).startRva ≤ p0.1 := by
      rw [hfst]; exact hlow m hm _ (getD_mem hi2r)
    have h2 := hq0 m hm
    omega
  · rw [if_neg hq]
    set u := upperBoundIdx ((e0 :: rest).map (·.startRva)) q with hu_def
    have hu_le : u ≤ (e0 :: rest).length := by
      rw [hu_def]
      have h3 := ub_le_length ((e0 :: rest).map (·.startRva)) q
      simpa using h3
    have hu_ne : u ≠ 0 := by
      rw [hu_def, List.map_cons]
      exact ub_pos_of_head_le hq
    rw [if_neg hu_ne]
    have hj_lt : u - 1 < (e0 :: rest).length := by
      have h3 : 0 < (e0 :: rest).length := by simp
      omega
    have hstart_le : ((e0 :: rest).getD (u - 1) dE).startRva ≤ q := by
      have h1 : ((e0 :: rest).map (·.startRva)).getD (u - 1) 0 ≤ q := by
        apply getD_le_of_lt_ub
        rw [← hu_def]
        omega
      rwa [getD_map_startRva _ _ hj_lt] at h1
    have hafter : ∀ m, u ≤ m → m < (e0 :: rest).length →
        q < ((e0 :: rest).getD m dE).startRva := by
      intro m hum hm
      have h1 : q < ((e0 :: rest).map (·.startRva)).getD m 0 := by
        apply lt_of_ub_le hsort
        · rw [← hu_def]; exact hum
        · simpa using hm
      rwa [getD_map_startRva _ _ hm] at h1
    have hdecj := hdec (u - 1) hj_lt
    rw [hdecj]
    dsimp only
    have hBsort := pure_ok_sorted hdecj
    have hBlen := pure_ok_same_length hdecj
    have hBne : (blocks.getD (u - 1) dB).rvas ≠ [] := hbne (u - 1) hj_lt
    have hBpos : 0 < (blocks.getD (u - 1) dB).rvas.length := List.length_pos.mpr hBne
    rcases hfl : floorInBlock (blocks.getD (u - 1) dB) q with _ | v
    · have hallB : ∀ r ∈ (blocks.getD (u - 1) dB).rvas, q < r :=
        floorInBlock_none hBsort hfl
      by_cases hj0 : u - 1 = 0
      · rw [if_pos hj0]
        refine ⟨fun _ => rfl, ?_⟩
        intro p0 hp0 hle
        exfalso
        obtain ⟨m, i2, hm, hi2r, hi2l, hfst, -⟩ := hpair p0 hp0
        by_cases hmu : u ≤ m
        · have h1 := hafter m hmu hm
          have h2 : ((e0 :: rest).getD m dE).startRva ≤ p0.1 := by
            rw [hfst]; exact hlow m hm _ (getD_mem hi2r)
          omega
        · have hm0 : m = u - 1 := by omega
          rw [hm0] at hfst hi2r
          have hmem : p0.1 ∈ (blocks.getD (u - 1) dB).rvas := by
            rw [hfst]; exact getD_mem hi2r
          have h3 := hallB _ hmem
          omega
      · rw [if_neg hj0]
        have hjm1_lt : u - 1 - 1 < (e0 :: rest).length := by omega
        have hdecp := hdec (u - 1 - 1) hjm1_lt
        rw [hdecp]
        dsimp only
        have hPsort := pure_ok_sorted hdecp
        have hPlen := pure_ok_same_length hdecp
        have hPne : (blocks.getD (u - 1 - 1) dB).rvas ≠ [] := hbne _ hjm1_lt
        have hPpos : 0 < (blocks.getD (u - 1 - 1) dB).rvas.length :=
          List.length_pos.mpr hPne
        have hPlpos : 0 < (blocks.getD (u - 1 - 1) dB).lines.length := by omega
        have hPlne : (blocks.getD (u - 1 - 1) dB).lines ≠ [] := by
          intro hnil
          rw [hnil] at hPlpos
          simp at hPlpos
        rw [getLast?_eq_getD hPlne]
        dsimp only
        have hstep := hhigh (u - 1 - 1) (by omega)
        have e1 : u - 1 - 1 + 1 = u - 1 := by omega
        rw [e1] at hstep
        have hkmem : (blocks.getD (u - 1 - 1) dB).rvas.getD
            ((blocks.getD (u - 1 - 1) dB).lines.length - 1) 0 ∈
            (blocks.getD (u - 1 - 1) dB).rvas := getD_mem (by omega)
        have hklt := hstep _ hkmem
        have hkpair : ((blocks.getD (u - 1 - 1) dB).rvas.getD
              ((blocks.getD (u - 1 - 1) dB).lines.length - 1) 0,
            (blocks.getD (u - 1 - 1) dB).lines.getD
              ((blocks.getD (u - 1 - 1) dB).lines.length - 1) 0) ∈ allPairs blocks :=
          (mem_allPairs blocks _).mpr
            ⟨u - 1 - 1, by omega, zip_getD_mem _ _ _ (by omega) (by omega)⟩
        have hkq : (blocks.getD (u - 1 - 1) dB).rvas.getD
            ((blocks.getD (u - 1 - 1) dB).lines.length - 1) 0 ≤ q := by omega
        refine ⟨?_, ?_⟩
        · intro hall
          exfalso
          have h3 := hall _ hkpair
          simp only [] at h3
          omega
        · intro p0 hp0 hle
          refine ⟨(blocks.getD (u - 1 - 1) dB).rvas.getD
              ((blocks.getD (u - 1 - 1) dB).lines.length - 1) 0,
            (blocks.getD (u - 1 - 1) dB).lines.getD
              ((blocks.getD (u - 1 - 1) dB).lines.length - 1) 0,
            rfl, hkpair, hkq, ?_⟩
          intro p2 hp2 hle2
          obtain ⟨m, i2, hm, hi2r, hi2l, hfst, -⟩ := hpair p2 hp2
          by_cases hmu : u ≤ m
          · exfalso
            have h1 := hafter m hmu hm
            have h2 : ((e0 :: rest).getD m dE).startRva ≤ p2.1 := by
              rw [hfst]; exact hlow m hm _ (getD_mem hi2r)
            omega
          · by_cases hmj : m = u - 1
            · exfalso
              rw [hmj] at hfst hi2r
              have hmem : p2.1 ∈ (blocks.getD (u - 1) dB).rvas := by
                rw [hfst]; exact getD_mem hi2r
              have h3 := hallB _ hmem
              omega
            · by_cases hmp : m = u - 1 - 1
              · rw [hmp] at hfst hi2r
                rw [hfst]
                exact sortedLe_mono hPsort (by omega) (by omega)
              · have h1 : p2.1 < ((e0 :: rest).getD (m + 1) dE).startRva := by
                  rw [hfst]
                  exact hhigh m (by omega) _ (getD_mem hi2r)
                have h2 : ((e0 :: rest).getD (m + 1) dE).startRva ≤
                    ((e0 :: rest).getD (u - 1 - 1) dE).startRva :=
                  hmono (m + 1) (u - 1 - 1) (by omega) hjm1_lt
                have h3 : ((e0 :: rest).getD (u - 1 - 1) dE).startRva ≤
                    (blocks.getD (u - 1 - 1) dB).rvas.getD
                      ((blocks.getD (u - 1 - 1) dB).lines.length - 1) 0 :=
                  hlow (u - 1 - 1) hjm1_lt _ hkmem
                omega
    · obtain ⟨ifl, hiflr, hifle, hveq, hmax⟩ := floorInBlock_some hBsort hfl
      have hkpair : ((blocks.getD (u - 1) dB).rvas.getD ifl 0,
          (blocks.getD (u - 1) dB).lines.getD ifl 0) ∈ allPairs blocks :=
        (mem_allPairs blocks _).mpr
          ⟨u - 1, by omega, zip_getD_mem _ _ _ hiflr (by omega)⟩
      refine ⟨?_, ?_⟩
      · intro hall
        exfalso
        have h3 := hall _ hkpair
        simp only [] at h3
        omega
      · intro p0 hp0 hle
        refine ⟨(blocks.getD (u - 1) dB).rvas.getD ifl 0, v, rfl, ?_, hifle, ?_⟩
        · rw [hveq]
          exact hkpair
        · intro p2 hp2 hle2
          obtain ⟨m, i2, hm, hi2r, hi2l, hfst, -⟩ := hpair p2 hp2
          by_cases hmu : u ≤ m
          · exfalso
            have h1 := hafter m hmu hm
            have h2 : ((e0 :: rest).getD m dE).startRva ≤ p2.1 := by
              rw [hfst]; exact hlow m hm _ (getD_mem hi2r)
            omega
          · by_cases hmj : m = u - 1
            · rw [hmj] at hfst hi2r
              have hle3 : (blocks.getD (u - 1) dB).rvas.getD i2 0 ≤ q := by
                rw [← hfst]; exact hle2
              have h4 := hmax i2 hi2r hle3
              rw [hfst]
              exact sortedLe_mono hBsort h4 hiflr
            · have h1 : p2.1 < ((e0 :: rest).getD (m + 1) dE).startRva := by
                rw [hfst]
                exact hhigh m (by omega) _ (getD_mem hi2r)
              have h2 : ((e0 :: rest).getD (m + 1) dE).startRva ≤
                  ((e0 :: rest).getD (u - 1) dE).startRva :=
                hmono (m + 1) (u - 1) (by omega) hj_lt
              have h3 : ((e0 :: rest).getD (u - 1) dE).startRva ≤
                  (blocks.getD (u - 1) dB).rvas.getD ifl 0 :=
                hlow (u - 1) hj_lt _ (getD_mem hiflr)
              omega

/-! ### Characterizing `parseIndex1` and `Load` -/

theorem parse_ok_elim {i1 : Option (List Nat)} {es : List Index1Entry}
    (h : parseIndex1 i1 = Except.ok es) :
    ∃ f1, i1 = some f1 ∧ es = parsedTable f1 ∧ es ≠ [] ∧
      sortedLe (es.map (·.startRva)) = true := by
  rcases i1 with _ | f1
  · exact absurd h (by simp [parseIndex1])
  · refine ⟨f1, rfl, ?_⟩
    simp only [parseIndex1] at h
    split_ifs at h with h1 h2 h3 h4 h5 h6
    have hes := (Except.ok.inj h).symm
    refine ⟨hes, ?_, ?_⟩
    · rw [hes]
      intro hnil
      rw [hnil] at h5
      simp at h5
    · rw [hes]
      exact h6

/-- Success of `Load` pins down the whole resulting object state. -/
theorem load_true_elim {st0 : RvaIndexLookup} {f1 b2 : List Nat}
    {st : RvaIndexLookup} (h : Load st0 (some f1) (some b2) = (true, st)) :
    ∃ es, parseIndex1 (some f1) = Except.ok es ∧
      ReadLe32 b2 8 = es.length ∧
      st = { index1Entries := es, index2Path := some b2,
             totalDumpLines := if 2 ≤ ReadLe16 b2 4 then ReadLe32 b2 12 else 0,
             index2Open := some b2, index2OpenAttempted := true, lastError := "",
             cachedBlock := none } := by
  simp only [Load, EnsureIndex2Open, resetState] at h
  rcases hp : parseIndex1 (some f1) with msg | es <;> rw [hp] at h
  · exact absurd (congrArg Prod.fst h) (by simp)
  · simp only [] at h
    split at h
    next heq => exact absurd heq (by simp)
    next a st2 heq =>
      obtain ⟨-, h8⟩ := Prod.mk.inj heq
      subst h8
      dsimp only at h
      simp only [Option.getD_some] at h
      split_ifs at h with h1 h2 h3 h4 h5 h6 <;>
        first
          | exact absurd (congrArg Prod.fst h) Bool.false_ne_true
          | exact
              have h7 := congrArg Prod.snd h
              by
                dsimp only at h7
                subst h7
                refine ⟨es, rfl, by omega, ?_⟩
                first
                  | rw [if_pos h4]
                  | rw [if_neg h4]

/-- Every failing `Load` leaves an empty routing table and an empty cache. -/
theorem load_false_elim {st0 : RvaIndexLookup} {i1 i2 : Option (List Nat)}
    {st : RvaIndexLookup} (h : Load st0 i1 i2 = (false, st)) :
    st.index1Entries = [] ∧ st.cachedBlock = none := by
  simp only [Load, EnsureIndex2Open, resetState] at h
  rcases hp : parseIndex1 i1 with msg | es <;> rw [hp] at h
  · have h7 := congrArg Prod.snd h
    dsimp only at h7
    subst h7
    exact ⟨rfl, rfl⟩
  · rcases i2 with _ | b2
    · simp only [] at h
      split at h
      next a st2 heq =>
        obtain ⟨-, h8⟩ := Prod.mk.inj heq
        subst h8
        have h7 := congrArg Prod.snd h
        dsimp only at h7
        subst h7
        exact ⟨rfl, rfl⟩
      next heq => exact absurd heq (by simp)
    · simp only [] at h
      split at h
      next heq => exact absurd heq (by simp)
      next a st2 heq =>
        obtain ⟨-, h8⟩ := Prod.mk.inj heq
        subst h8
        dsimp only at h
        split_ifs at h with h1 h2 h3 h4 h5 h6 <;>
          first
            | exact absurd (congrArg Prod.fst h) (fun hcc => Bool.noConfusion hcc)
            | exact
                have h7 := congrArg Prod.snd h
                by subst h7; exact ⟨rfl, rfl⟩

/-- A query against an engine whose routing table is empty returns not-found
immediately, with no state change and no file read. -/
theorem find_empty {st : RvaIndexLookup} (h : st.index1Entries = [])
    (q : Nat) (nl : Bool) :
    FindClosestLowerOrEqualLine st q nl = ⟨false, none, st, 0⟩ := by
  rw [FindClosestLowerOrEqualLine, h]
  rcases nl <;> rfl

/-! ### The lookup never consults `totalDumpLines_` -/

theorem loadBlockFresh_tdl (a1 : List Index1Entry) (a2 : Option (List Nat))
    (m n : Nat) (a4 : Option (List Nat)) (a5 : Bool) (a6 : String)
    (a7 : Option (Nat × DecodedBlock)) (i : Nat) :
    LoadDecodedBlockFresh ⟨a1, a2, n, a4, a5, a6, a7⟩ i =
      ⟨(LoadDecodedBlockFresh ⟨a1, a2, m, a4, a5, a6, a7⟩ i).res,
       { (LoadDecodedBlockFresh ⟨a1, a2, m, a4, a5, a6, a7⟩ i).post with totalDumpLines := n },
       (LoadDecodedBlockFresh ⟨a1, a2, m, a4, a5, a6, a7⟩ i).reads⟩ := by
  rw [LoadDecodedBlockFresh, LoadDecodedBlockFresh]
  dsimp only
  rcases LoadDecodedBlockPure a1 (a4.getD []) i with msg | d <;> rfl

theorem loadBlock_tdl (a1 : List Index1Entry) (a2 : Option (List Nat))
    (m n : Nat) (a4 : Option (List Nat)) (a5 : Bool) (a6 : String)
    (a7 : Option (Nat × DecodedBlock)) (i : Nat) :
    LoadDecodedBlock ⟨a1, a2, n, a4, a5, a6, a7⟩ i =
      ⟨(LoadDecodedBlock ⟨a1, a2, m, a4, a5, a6, a7⟩ i).res,
       { (LoadDecodedBlock ⟨a1, a2, m, a4, a5, a6, a7⟩ i).post with totalDumpLines := n },
       (LoadDecodedBlock ⟨a1, a2, m, a4, a5, a6, a7⟩ i).reads⟩ := by
  rw [LoadDecodedBlock, LoadDecodedBlock]
  dsimp only
  by_cases hr : a1.length ≤ i
  · rw [if_pos hr, if_pos hr]
  · rw [if_neg hr, if_neg hr]
    rw [EnsureIndex2Open, EnsureIndex2Open]
    dsimp only
    rcases a4 with _ | b
    · rcases a5
      · dsimp only
        rcases a2 with _ | p
        · rfl
        · rw [if_neg Bool.false_ne_true, if_neg Bool.false_ne_true]
          dsimp only
          rcases a7 with _ | ⟨ci, cb⟩
          · exact loadBlockFresh_tdl a1 (some p) m n (some p) true a6 none i
          · dsimp only
            by_cases hci : ci = i
            · rw [if_pos hci, if_pos hci]
            · rw [if_neg hci, if_neg hci]
              exact loadBlockFresh_tdl a1 (some p) m n (some p) true a6 (some (ci, cb)) i
      · rfl
    · dsimp only
      rcases a7 with _ | ⟨ci, cb⟩
      · exact loadBlockFresh_tdl a1 a2 m n (some b) a5 a6 none i
      · dsimp only
        by_cases hci : ci = i
        · rw [if_pos hci, if_pos hci]
        · rw [if_neg hci, if_neg hci]
          exact loadBlockFresh_tdl a1 a2 m n (some b) a5 a6 (some (ci, cb)) i

theorem find_tdl (a1 : List Index1Entry) (a2 : Option (List Nat))
    (m n : Nat) (a4 : Option (List Nat)) (a5 : Bool) (a6 : String)
    (a7 : Option (Nat × DecodedBlock)) (q : Nat) (nl : Bool) :
    FindClosestLowerOrEqualLine ⟨a1, a2, n, a4, a5, a6, a7⟩ q nl =
      ⟨(FindClosestLowerOrEqualLine ⟨a1, a2, m, a4, a5, a6, a7⟩ q nl).found,
       (FindClosestLowerOrEqualLine ⟨a1, a2, m, a4, a5, a6, a7⟩ q nl).outLine,
       { (FindClosestLowerOrEqualLine ⟨a1, a2, m, a4, a5, a6, a7⟩ q nl).post with
           totalDumpLines := n },
       (FindClosestLowerOrEqualLine ⟨a1, a2, m, a4, a5, a6, a7⟩ q nl).reads⟩ := by
  rw [FindClosestLowerOrEqualLine, FindClosestLowerOrEqualLine]
  rcases nl
  · rw [if_neg Bool.false_ne_true, if_neg Bool.false_ne_true]
    rcases a1 with _ | ⟨e0, rest⟩
    · rfl
    · dsimp only
      by_cases hq : q < e0.startRva
      · rw [if_pos hq, if_pos hq]
      · rw [if_neg hq, if_neg hq]
        by_cases hu : upperBoundIdx ((e0 :: rest).map (·.startRva)) q = 0
        · rw [if_pos hu, if_pos hu]
        · rw [if_neg hu, if_neg hu]
          rw [loadBlock_tdl (e0 :: rest) a2 m n a4 a5 a6 a7]
          dsimp only
          rcases (LoadDecodedBlock ⟨e0 :: rest, a2, m, a4, a5, a6, a7⟩
              (upperBoundIdx ((e0 :: rest).map (·.startRva)) q - 1)).res with msg | blk
          · rfl
          · dsimp only
            rcases floorInBlock blk q with _ | v
            · dsimp only
              by_cases h0 : upperBoundIdx ((e0 :: rest).map (·.startRva)) q - 1 = 0
              · rw [if_pos h0, if_pos h0]
              · rw [if_neg h0, if_neg h0]
                rcases hpost : (LoadDecodedBlock ⟨e0 :: rest, a2, m, a4, a5, a6, a7⟩
                    (upperBoundIdx ((e0 :: rest).map (·.startRva)) q - 1)).post
                    with ⟨c1, c2, c3, c4, c5, c6, c7⟩
                rw [loadBlock_tdl c1 c2 c3 n c4 c5 c6 c7]
                dsimp only
                rcases (LoadDecodedBlock ⟨c1, c2, c3, c4, c5, c6, c7⟩
                    (upperBoundIdx ((e0 :: rest).map (·.startRva)) q - 1 - 1)).res
                    with m2 | prev
                · rfl
                · dsimp only
                  rcases prev.lines.getLast? with _ | v <;> rfl
            · rfl
  · rfl

/-! ### Exact failure conditions of a block decode -/

theorem pure_decode_iff (entries : List Index1Entry) (b : List Nat) (i : Nat)
    (hi : i < entries.length) :
    ((∃ msg, LoadDecodedBlockPure entries b i = Except.error msg) ↔
      ((entries.getD i dE).index2Size < 16 ∨
       b.length < (entries.getD i dE).index2Offset + (entries.getD i dE).index2Size ∨
       16 + ReadLe32 (blockBuf b (entries.getD i dE)) 12 * 8 ≠ (entries.getD i dE).index2Size ∨
       sortedLe (decodeGo (blockBuf b (entries.getD i dE))
         (ReadLe32 (blockBuf b (entries.getD i dE)) 8) 0
         (ReadLe64 (blockBuf b (entries.getD i dE)) 0)
         (ReadLe32 (blockBuf b (entries.getD i dE)) 12)).1 = false)) ∧
    (¬((entries.getD i dE).index2Size < 16 ∨
       b.length < (entries.getD i dE).index2Offset + (entries.getD i dE).index2Size ∨
       16 + ReadLe32 (blockBuf b (entries.getD i dE)) 12 * 8 ≠ (entries.getD i dE).index2Size ∨
       sortedLe (decodeGo (blockBuf b (entries.getD i dE))
         (ReadLe32 (blockBuf b (entries.getD i dE)) 8) 0
         (ReadLe64 (blockBuf b (entries.getD i dE)) 0)
         (ReadLe32 (blockBuf b (entries.getD i dE)) 12)).1 = false) →
      LoadDecodedBlockPure entries b i = Except.ok
        ⟨(decodeGo (blockBuf b (entries.getD i dE))
            (ReadLe32 (blockBuf b (entries.getD i dE)) 8) 0
            (ReadLe64 (blockBuf b (entries.getD i dE)) 0)
            (ReadLe32 (blockBuf b (entries.getD i dE)) 12)).1,
         (decodeGo (blockBuf b (entries.getD i dE))
            (ReadLe32 (blockBuf b (entries.getD i dE)) 8) 0
            (ReadLe64 (blockBuf b (entries.getD i dE)) 0)
            (ReadLe32 (blockBuf b (entries.getD i dE)) 12)).2⟩) := by
  have hrange : ¬ entries.length ≤ i := by omega
  by_cases h1 : (entries.getD i dE).index2Size < 16
  · have herr : LoadDecodedBlockPure entries b i =
        Except.error "Corrupt block: size smaller than block header" := by
      simp only [LoadDecodedBlockPure]
      rw [if_neg hrange, if_pos h1]
    exact ⟨⟨fun _ => Or.inl h1, fun _ => ⟨_, herr⟩⟩,
      fun hn => absurd (Or.inl h1) hn⟩
  · by_cases h2 : b.length <
        (entries.getD i dE).index2Offset + (entries.getD i dE).index2Size
    · have herr : LoadDecodedBlockPure entries b i =
          Except.error "Failed reading index2 block" := by
        simp only [LoadDecodedBlockPure]
        rw [if_neg hrange, if_neg h1, if_pos h2]
      exact ⟨⟨fun _ => Or.inr (Or.inl h2), fun _ => ⟨_, herr⟩⟩,
        fun hn => absurd (Or.inr (Or.inl h2)) hn⟩
    · by_cases h3 : 16 + ReadLe32 (blockBuf b (entries.getD i dE)) 12 * 8 ≠
          (entries.getD i dE).index2Size
      · have herr : LoadDecodedBlockPure entries b i =
            Except.error "Corrupt block: record count does not match block size" := by
          simp only [LoadDecodedBlockPure]
          rw [if_neg hrange, if_neg h1, if_neg h2, if_pos h3]
        exact ⟨⟨fun _ => Or.inr (Or.inr (Or.inl h3)), fun _ => ⟨_, herr⟩⟩,
          fun hn => absurd (Or.inr (Or.inr (Or.inl h3))) hn⟩
      · by_cases h4 : sortedLe (decodeGo (blockBuf b (entries.getD i dE))
            (ReadLe32 (blockBuf b (entries.getD i dE)) 8) 0
            (ReadLe64 (blockBuf b (entries.getD i dE)) 0)
            (ReadLe32 (blockBuf b (entries.getD i dE)) 12)).1 = true
        · have hok : LoadDecodedBlockPure entries b i = Except.ok
              ⟨(decodeGo (blockBuf b (entries.getD i dE))
                  (ReadLe32 (blockBuf b (entries.getD i dE)) 8) 0
                  (ReadLe64 (blockBuf b (entries.getD i dE)) 0)
                  (ReadLe32 (blockBuf b (entries.getD i dE)) 12)).1,
               (decodeGo (blockBuf b (entries.getD i dE))
                  (ReadLe32 (blockBuf b (entries.getD i dE)) 8) 0
                  (ReadLe64 (blockBuf b (entries.getD i dE)) 0)
                  (ReadLe32 (blockBuf b (entries.getD i dE)) 12)).2⟩ := by
            simp only [LoadDecodedBlockPure]
            rw [if_neg hrange, if_neg h1, if_neg h2, if_neg h3, if_pos h4]
          refine ⟨⟨?_, ?_⟩, fun _ => hok⟩
          · rintro ⟨msg, hmsg⟩
            rw [hok] at hmsg
            exact absurd hmsg (by simp)
          · rintro (h | h | h | h)
            · exact absurd h h1
            · exact absurd h h2
            · exact absurd h h3
            · rw [h4] at h
              exact absurd h (by simp)
        · have h4f : sortedLe (decodeGo (blockBuf b (entries.getD i dE))
              (ReadLe32 (blockBuf b (entries.getD i dE)) 8) 0
              (ReadLe64 (blockBuf b (entries.getD i dE)) 0)
              (ReadLe32 (blockBuf b (entries.getD i dE)) 12)).1 = false := by
            rw [← Bool.not_eq_true]
            exact h4
          have herr : LoadDecodedBlockPure entries b i =
              Except.error "Corrupt block: RVAs are not sorted" := by
            simp only [LoadDecodedBlockPure]
            rw [if_neg hrange, if_neg h1, if_neg h2, if_neg h3, if_neg h4]
          exact ⟨⟨fun _ => Or.inr (Or.inr (Or.inr h4f)), fun _ => ⟨_, herr⟩⟩,
            fun hn => absurd (Or.inr (Or.inr (Or.inr h4f))) hn⟩

/-- A block whose every decoded key exceeds the query yields no in-block
floor. -/
theorem floorInBlock_none_of_all {d : DecodedBlock} {q : Nat}
    (h : ∀ r ∈ d.rvas, q < r) : floorInBlock d q = none := by
  rw [floorInBlock]
  by_cases he : d.rvas.isEmpty
  · rw [if_pos he]
  · rw [if_neg he, if_pos (ub_eq_zero_of_forall h)]

/-! ### Claims -/

/-- C9: a call with a null output-line pointer returns false immediately: the
state (stream, open-attempted flag, cache) is untouched and no block is read
from the index files — the null check precedes all other work. -/
theorem C9_null_out_short_circuit (st : RvaIndexLookup) (q : Nat) :
    FindClosestLowerOrEqualLine st q true = ⟨false, none, st, 0⟩ := rfl

/-- C3 counterexample: a version-2 index2 whose declared block count
mismatches the routing table makes `Load` fail after `totalDumpLines_` was
already overwritten with the header value 7, so the failed object reports a
non-zero total — previously-parsed state is not entirely cleared. -/
theorem C3_counterexample :
    (Load resetState (some c3I1) (some c3I2)).1 = false ∧
    GetTotalDumpLines (Load resetState (some c3I1) (some c3I2)).2 = 7 ∧
    GetTotalDumpLines resetState = 0 := by
  refine ⟨rfl, rfl, rfl⟩

/-- C3 (amended): on every failing `Load` the routing table is empty, the
cache is empty, and every subsequent query returns not-found without touching
the files; `totalDumpLines` however may retain the header-declared count when
the failure happens after that field was read (block-count mismatch in a
version ≥ 2 file). -/
theorem C3_failure_clears_state (st0 : RvaIndexLookup)
    (i1 i2 : Option (List Nat)) (st : RvaIndexLookup)
    (h : Load st0 i1 i2 = (false, st)) :
    st.index1Entries = [] ∧ st.cachedBlock = none ∧
    ∀ q nl, FindClosestLowerOrEqualLine st q nl = ⟨false, none, st, 0⟩ := by
  obtain ⟨h1, h2⟩ := load_false_elim h
  exact ⟨h1, h2, fun q nl => find_empty h1 q nl⟩

/-- C3 witness: a concrete failing `Load` (bad magic) leaves a state that
misses on every query. -/
theorem C3_failure_clears_state_witness :
    (Load resetState (some [0, 1, 2, 3]) (some goodI2)).2.index1Entries = [] ∧
    (Load resetState (some [0, 1, 2, 3]) (some goodI2)).2.cachedBlock = none ∧
    ∀ q nl, FindClosestLowerOrEqualLine
      (Load resetState (some [0, 1, 2, 3]) (some goodI2)).2 q nl =
      ⟨false, none, (Load resetState (some [0, 1, 2, 3]) (some goodI2)).2, 0⟩ :=
  C3_failure_clears_state resetState (some [0, 1, 2, 3]) (some goodI2)
    (Load resetState (some [0, 1, 2, 3]) (some goodI2)).2 rfl

/-- C4: the record-decoding loop produces, for record 0, the absolute address
`startKey + addressDelta` (u64 arithmetic) and the value `rawValue` unless it
is 0, in which case `startValue`; for each later record, the previous address
plus its delta, and the raw value taken as-is.  The last conjunct ties the
loop to the decoder: every successfully decoded block is exactly the loop's
output on the block's buffer. -/
theorem C4_record_decoding :
    (∀ (buf : List Nat) (s c n : Nat),
      (decodeGo buf s 0 c n).1.length = n ∧
      (decodeGo buf s 0 c n).2.length = n ∧
      (0 < n → (decodeGo buf s 0 c n).1.getD 0 0 = (c + ReadLe32 buf 16) % 2 ^ 64 ∧
        (decodeGo buf s 0 c n).2.getD 0 0 =
          (if ReadLe32 buf 20 = 0 then s else ReadLe32 buf 20)) ∧
      (∀ j, j + 1 < n →
        (decodeGo buf s 0 c n).1.getD (j + 1) 0 =
          ((decodeGo buf s 0 c n).1.getD j 0 + ReadLe32 buf (16 + 8 * (j + 1))) % 2 ^ 64 ∧
        (decodeGo buf s 0 c n).2.getD (j + 1) 0 = ReadLe32 buf (16 + 8 * (j + 1) + 4))) ∧
    (∀ (entries : List Index1Entry) (b : List Nat) (i : Nat) (d : DecodedBlock),
      LoadDecodedBlockPure entries b i = Except.ok d →
      d.rvas = (decodeGo (blockBuf b (entries.getD i dE))
        (ReadLe32 (blockBuf b (entries.getD i dE)) 8) 0
        (ReadLe64 (blockBuf b (entries.getD i dE)) 0)
        (ReadLe32 (blockBuf b (entries.getD i dE)) 12)).1 ∧
      d.lines = (decodeGo (blockBuf b (entries.getD i dE))
        (ReadLe32 (blockBuf b (entries.getD i dE)) 8) 0
        (ReadLe64 (blockBuf b (entries.getD i dE)) 0)
        (ReadLe32 (blockBuf b (entries.getD i dE)) 12)).2) := by
  constructor
  · intro buf s c n
    refine ⟨(decodeGo_length buf s n 0 c).1, (decodeGo_length buf s n 0 c).2, ?_, ?_⟩
    · intro hn
      obtain ⟨k, rfl⟩ := Nat.exists_eq_succ_of_ne_zero (Nat.pos_iff_ne_zero.mp hn)
      constructor
      · have h := decodeGo_rvas_head buf s 0 c k
        simpa using h
      · exact decodeGo_lines_zero buf s c k
    · intro j hj
      constructor
      · have h := decodeGo_rvas_succ buf s n 0 c j hj
        simpa using h
      · have h := decodeGo_lines_pos buf s n 0 c (j + 1) hj (by omega)
        simpa using h
  · intro entries b i d hd
    obtain ⟨-, -, -, -, hr, hl, -⟩ := pure_ok_elim hd
    exact ⟨hr, hl⟩

/-- C4 witness: the recurrences evaluated on the first concrete block of the
good pair (records (100 ↦ 10), (200 ↦ 20); the first record exercises the
rawValue-0 rule). -/
theorem C4_record_decoding_witness :
    0 < 2 ∧
    (decodeGo (blockBuf goodI2 ⟨100, 12, 32⟩)
      (ReadLe32 (blockBuf goodI2 ⟨100, 12, 32⟩) 8) 0
      (ReadLe64 (blockBuf goodI2 ⟨100, 12, 32⟩) 0) 2).1.getD 0 0 =
      (ReadLe64 (blockBuf goodI2 ⟨100, 12, 32⟩) 0 +
        ReadLe32 (blockBuf goodI2 ⟨100, 12, 32⟩) 16) % 2 ^ 64 ∧
    (decodeGo (blockBuf goodI2 ⟨100, 12, 32⟩)
      (ReadLe32 (blockBuf goodI2 ⟨100, 12, 32⟩) 8) 0
      (ReadLe64 (blockBuf goodI2 ⟨100, 12, 32⟩) 0) 2).2.getD 0 0 =
      (if ReadLe32 (blockBuf goodI2 ⟨100, 12, 32⟩) 20 = 0
        then ReadLe32 (blockBuf goodI2 ⟨100, 12, 32⟩) 8
        else ReadLe32 (blockBuf goodI2 ⟨100, 12, 32⟩) 20) := by
  refine ⟨by decide, ?_, ?_⟩
  · exact ((C4_record_decoding.1 (blockBuf goodI2 ⟨100, 12, 32⟩)
      (ReadLe32 (blockBuf goodI2 ⟨100, 12, 32⟩) 8)
      (ReadLe64 (blockBuf goodI2 ⟨100, 12, 32⟩) 0) 2).2.2.1 (by decide)).1
  · exact ((C4_record_decoding.1 (blockBuf goodI2 ⟨100, 12, 32⟩)
      (ReadLe32 (blockBuf goodI2 ⟨100, 12, 32⟩) 8)
      (ReadLe64 (blockBuf goodI2 ⟨100, 12, 32⟩) 0) 2).2.2.1 (by decide)).2

/-- C5: for a routing entry in range, block decode fails exactly when the
declared size is below 16, the declared region cannot be fully read, the
declared size differs from `16 + recordCount*8`, or the decoded address
sequence is not non-decreasing; a block passing all four checks decodes
successfully (never a silently wrong answer). -/
theorem C5_decode_failure_conditions (entries : List Index1Entry)
    (b : List Nat) (i : Nat) (hi : i < entries.length) :
    ((∃ msg, LoadDecodedBlockPure entries b i = Except.error msg) ↔
      ((entries.getD i dE).index2Size < 16 ∨
       b.length < (entries.getD i dE).index2Offset + (entries.getD i dE).index2Size ∨
       16 + ReadLe32 (blockBuf b (entries.getD i dE)) 12 * 8 ≠ (entries.getD i dE).index2Size ∨
       sortedLe (decodeGo (blockBuf b (entries.getD i dE))
         (ReadLe32 (blockBuf b (entries.getD i dE)) 8) 0
         (ReadLe64 (blockBuf b (entries.getD i dE)) 0)
         (ReadLe32 (blockBuf b (entries.getD i dE)) 12)).1 = false)) ∧
    (¬((entries.getD i dE).index2Size < 16 ∨
       b.length < (entries.getD i dE).index2Offset + (entries.getD i dE).index2Size ∨
       16 + ReadLe32 (blockBuf b (entries.getD i dE)) 12 * 8 ≠ (entries.getD i dE).index2Size ∨
       sortedLe (decodeGo (blockBuf b (entries.getD i dE))
         (ReadLe32 (blockBuf b (entries.getD i dE)) 8) 0
         (ReadLe64 (blockBuf b (entries.getD i dE)) 0)
         (ReadLe32 (blockBuf b (entries.getD i dE)) 12)).1 = false) →
      LoadDecodedBlockPure entries b i = Except.ok
        ⟨(decodeGo (blockBuf b (entries.getD i dE))
            (ReadLe32 (blockBuf b (entries.getD i dE)) 8) 0
            (ReadLe64 (blockBuf b (entries.getD i dE)) 0)
            (ReadLe32 (blockBuf b (entries.getD i dE)) 12)).1,
         (decodeGo (blockBuf b (entries.getD i dE))
            (ReadLe32 (blockBuf b (entries.getD i dE)) 8) 0
            (ReadLe64 (blockBuf b (entries.getD i dE)) 0)
            (ReadLe32 (blockBuf b (entries.getD i dE)) 12)).2⟩) :=
  pure_decode_iff entries b i hi

/-- C5 witness: on the good pair, block 0 passes all checks and decodes to
exactly the loop's output, and a corrupted entry (size 17, not 16 + 8k) is
rejected. -/
theorem C5_decode_failure_conditions_witness :
    0 < loadedGood.index1Entries.length ∧
    LoadDecodedBlockPure loadedGood.index1Entries goodI2 0 =
      Except.ok ⟨[100, 200], [10, 20]⟩ ∧
    (∃ msg, LoadDecodedBlockPure [⟨100, 12, 17⟩] goodI2 0 = Except.error msg) := by
  refine ⟨by decide, ?_, ?_⟩
  · have h := (C5_decode_failure_conditions loadedGood.index1Entries goodI2 0
      (by decide)).2 (by decide)
    rw [h]
    rfl
  · exact (C5_decode_failure_conditions [⟨100, 12, 17⟩] goodI2 0
      (by decide)).1.mpr (by decide)

/-- C6: under a readable index1 header, `Load` fails whenever the parsed
routing table is empty and whenever it is not sorted ascending by `startRva`;
a sorted non-empty table passes these two checks (the index1 stage
succeeds). -/
theorem C6_routing_table_validation (st0 : RvaIndexLookup) (f1 : List Nat)
    (i2 : Option (List Nat)) (hH : index1HeaderOk f1) :
    (parsedTable f1 = [] → (Load st0 (some f1) i2).1 = false) ∧
    (¬ sortedLe ((parsedTable f1).map (·.startRva)) = true →
      (Load st0 (some f1) i2).1 = false) ∧
    (parsedTable f1 ≠ [] → sortedLe ((parsedTable f1).map (·.startRva)) = true →
      parseIndex1 (some f1) = Except.ok (parsedTable f1)) := by
  obtain ⟨hl, hm, hv, hc⟩ := hH
  have hmag : ¬¬(f1.getD 0 0 = 73 ∧ f1.getD 1 0 = 68 ∧ f1.getD 2 0 = 88 ∧
      f1.getD 3 0 = 49) := not_not_intro hm
  have hver : ¬(ReadLe16 f1 4 ≠ 1 ∧ ReadLe16 f1 4 ≠ 2 ∧ ReadLe16 f1 4 ≠ 3) := by
    rcases hv with h | h | h <;> simp [h]
  refine ⟨?_, ?_, ?_⟩
  · intro hempty
    have hperr : parseIndex1 (some f1) = Except.error "index1 has no entries" := by
      simp only [parseIndex1]
      rw [if_neg (by omega), if_neg hmag, if_neg hver, if_neg (by omega),
        if_pos (by rw [hempty]; rfl)]
    rw [Load, hperr]
  · intro hns
    have hne : ¬(parsedTable f1).isEmpty = true := by
      intro hie
      have : parsedTable f1 = [] := by simpa [List.isEmpty_iff] using hie
      rw [this] at hns
      exact hns rfl
    have hperr : parseIndex1 (some f1) =
        Except.error "index1 entries are not sorted by startRva" := by
      simp only [parseIndex1]
      rw [if_neg (by omega), if_neg hmag, if_neg hver, if_neg (by omega),
        if_neg hne, if_pos hns]
    rw [Load, hperr]
  · intro hne hsort
    simp only [parseIndex1]
    rw [if_neg (by omega), if_neg hmag, if_neg hver, if_neg (by omega),
      if_neg (by simpa [List.isEmpty_iff] using hne), if_neg (not_not_intro hsort)]

/-- C6 witness: the good index1 header is readable, parses to a sorted
non-empty table and passes the two checks; an unsorted variant fails. -/
theorem C6_routing_table_validation_witness :
    index1HeaderOk goodI1 ∧
    parseIndex1 (some goodI1) = Except.ok (parsedTable goodI1) := by
  have hH : index1HeaderOk goodI1 := by
    refine ⟨by decide, by decide, ?_, by decide⟩
    left
    decide
  exact ⟨hH, (C6_routing_table_validation resetState goodI1 (some goodI2) hH).2.2
    (by decide) (by decide)⟩

/-- C7: after a successful `Load`, `GetTotalDumpLines` is 0 when the index2
header declares version 1 and the header's total-value-count field verbatim
when it declares version 2 or 3; and the lookup never consults the field —
its result (flag, value, reads, and the rest of the state) is unchanged under
any value of `totalDumpLines`. -/
theorem C7_total_dump_lines (st0 st : RvaIndexLookup) (f1 b : List Nat)
    (n q : Nat) (nl : Bool)
    (hload : Load st0 (some f1) (some b) = (true, st)) :
    (ReadLe16 b 4 = 1 → GetTotalDumpLines st = 0) ∧
    (2 ≤ ReadLe16 b 4 → GetTotalDumpLines st = ReadLe32 b 12) ∧
    (FindClosestLowerOrEqualLine { st with totalDumpLines := n } q nl =
      ⟨(FindClosestLowerOrEqualLine st q nl).found,
       (FindClosestLowerOrEqualLine st q nl).outLine,
       { (FindClosestLowerOrEqualLine st q nl).post with totalDumpLines := n },
       (FindClosestLowerOrEqualLine st q nl).reads⟩) := by
  obtain ⟨es, hp, hbc, hstq⟩ := load_true_elim hload
  refine ⟨?_, ?_, ?_⟩
  · intro h1
    rw [GetTotalDumpLines, hstq]
    dsimp only
    rw [if_neg (by omega)]
  · intro h2
    rw [GetTotalDumpLines, hstq]
    dsimp only
    rw [if_pos h2]
  · rcases st with ⟨a1, a2, a3, a4, a5, a6, a7⟩
    exact find_tdl a1 a2 a3 n a4 a5 a6 a7 q nl

/-- C7 witness: the version-1 pair reports 0; the version-2 pair reports the
header's 42 verbatim; on the version-1 pair a query at 150 is unchanged by
overwriting the counter. -/
theorem C7_total_dump_lines_witness :
    GetTotalDumpLines loadedGood = 0 ∧
    GetTotalDumpLines loadedG2 = 42 ∧
    FindClosestLowerOrEqualLine { loadedGood with totalDumpLines := 9 } 150 false =
      ⟨(FindClosestLowerOrEqualLine loadedGood 150 false).found,
       (FindClosestLowerOrEqualLine loadedGood 150 false).outLine,
       { (FindClosestLowerOrEqualLine loadedGood 150 false).post with
           totalDumpLines := 9 },
       (FindClosestLowerOrEqualLine loadedGood 150 false).reads⟩ := by
  refine ⟨(C7_total_dump_lines resetState loadedGood goodI1 goodI2 9 150 false
      rfl).1 (by decide),
    (C7_total_dump_lines resetState loadedG2 g2I1 g2I2 9 150 false rfl).2.1
      (by decide),
    (C7_total_dump_lines resetState loadedGood goodI1 goodI2 9 150 false
      rfl).2.2⟩

/-- C10: every block that `LoadDecodedBlock` returns successfully — from the
file or as a copy from the coherent cache slot — has rvas and lines of equal
length, both equal to the block's declared record count, with rvas
non-decreasing; hence the `lines` access paired with any index the in-block
binary search finds is in bounds. -/
theorem C10_decoded_block_invariants (st : RvaIndexLookup) (b : List Nat)
    (i : Nat) (d : DecodedBlock) (ho : st.index2Open = some b)
    (hc : CacheOK st) (hres : (LoadDecodedBlock st i).res = Except.ok d) :
    d.rvas.length = ReadLe32 (blockBuf b (st.index1Entries.getD i dE)) 12 ∧
    d.lines.length = d.rvas.length ∧
    sortedLe d.rvas = true ∧
    (∀ q, upperBoundIdx d.rvas q ≠ 0 →
      upperBoundIdx d.rvas q - 1 < d.lines.length) := by
  obtain ⟨hr, -, -, -, -⟩ := loadBlock_spec ho hc i
  rw [hr] at hres
  obtain ⟨h1, h2⟩ := pure_ok_lengths hres
  have hs := pure_ok_sorted hres
  refine ⟨h1, by omega, hs, ?_⟩
  intro q hq
  have hub := ub_le_length d.rvas q
  have hpos : 0 < upperBoundIdx d.rvas q := Nat.pos_of_ne_zero hq
  omega

/-- C10 witness: the second block of the good pair, loaded through the cached
path after a first load, keeps the invariants. -/
theorem C10_decoded_block_invariants_witness :
    loadedGood.index2Open = some goodI2 ∧
    (LoadDecodedBlock loadedGood 1).res = Except.ok ⟨[1005, 1105], [30, 40]⟩ ∧
    ([1005, 1105] : List Nat).length =
      ReadLe32 (blockBuf goodI2 (loadedGood.index1Entries.getD 1 dE)) 12 ∧
    sortedLe [1005, 1105] = true := by
  refine ⟨rfl, rfl, ?_, by decide⟩
  exact (C10_decoded_block_invariants loadedGood goodI2 1 ⟨[1005, 1105], [30, 40]⟩
    rfl trivial rfl).1

/-- C8: the lookup's observable result is independent of the cache state — a
call against any coherent cache returns the same flag and value as against an
emptied cache, and a second identical call (served from the now-warm cache)
returns the same result as the first. -/
theorem C8_cache_transparency (st : RvaIndexLookup) (b : List Nat) (q : Nat)
    (ho : st.index2Open = some b) (hc : CacheOK st) :
    ((FindClosestLowerOrEqualLine st q false).found =
       (FindClosestLowerOrEqualLine { st with cachedBlock := none } q false).found ∧
     (FindClosestLowerOrEqualLine st q false).outLine =
       (FindClosestLowerOrEqualLine { st with cachedBlock := none } q false).outLine) ∧
    ((FindClosestLowerOrEqualLine
        (FindClosestLowerOrEqualLine st q false).post q false).found =
       (FindClosestLowerOrEqualLine st q false).found ∧
     (FindClosestLowerOrEqualLine
        (FindClosestLowerOrEqualLine st q false).post q false).outLine =
       (FindClosestLowerOrEqualLine st q false).outLine) := by
  have ho2 : ({ st with cachedBlock := none } : RvaIndexLookup).index2Open = some b := ho
  have hc2 : CacheOK { st with cachedBlock := none } := trivial
  obtain ⟨ha1, ha2, ha3, ha4, ha5, ha6⟩ := find_spec ho hc q
  obtain ⟨hb1, hb2, -, -, -, -⟩ := find_spec ho2 hc2 q
  have hee : ({ st with cachedBlock := none } : RvaIndexLookup).index1Entries =
      st.index1Entries := rfl
  rw [hee] at hb1 hb2
  obtain ⟨hc1, hc2', -, -, -, -⟩ := find_spec ha4 ha6 q
  rw [ha3] at hc1 hc2'
  exact ⟨⟨by rw [ha1, hb1], by rw [ha2, hb2]⟩,
    by rw [hc1, ha1], by rw [hc2', ha2]⟩

/-- C8 witness: on the good pair at query 1050 the cold-cache call, the
cache-emptied call, and the repeated call agree. -/
theorem C8_cache_transparency_witness :
    loadedGood.index2Open = some goodI2 ∧
    (FindClosestLowerOrEqualLine
       (FindClosestLowerOrEqualLine loadedGood 1050 false).post 1050 false).outLine =
      (FindClosestLowerOrEqualLine loadedGood 1050 false).outLine ∧
    (FindClosestLowerOrEqualLine loadedGood 1050 false).outLine =
      (FindClosestLowerOrEqualLine { loadedGood with cachedBlock := none }
        1050 false).outLine := by
  refine ⟨rfl, ?_, ?_⟩
  · exact (C8_cache_transparency loadedGood goodI2 1050 rfl trivial).2.2
  · exact (C8_cache_transparency loadedGood goodI2 1050 rfl trivial).1.2

/-- C1 counterexample: `Load` accepts this pair, both blocks decode with
sorted keys (so the pair is well-formed in the claim's sense), the pair
(50 ↦ 2) is stored in block 1, yet the lookup at the stored key 50 returns 1
— the value of block 0's key 0 — because block 1's routing key 100 exceeds
its own content.  The claim's well-formedness (sorted table, structurally
valid blocks with sorted keys) is too weak: it does not constrain block
contents to the routing ranges. -/
theorem C1_counterexample :
    (Load resetState (some c1I1) (some c1I2)).1 = true ∧
    LoadDecodedBlockPure loadedC1.index1Entries c1I2 0 = Except.ok ⟨[0], [1]⟩ ∧
    LoadDecodedBlockPure loadedC1.index1Entries c1I2 1 = Except.ok ⟨[50], [2]⟩ ∧
    sortedLe [0] = true ∧ sortedLe [50] = true ∧
    (50, 2) ∈ allPairs [⟨[0], [1]⟩, ⟨[50], [2]⟩] ∧
    (FindClosestLowerOrEqualLine loadedC1 50 false).found = true ∧
    (FindClosestLowerOrEqualLine loadedC1 50 false).outLine = some 1 ∧
    (some 1 : Option Nat) ≠ some 2 := by
  exact ⟨rfl, rfl, rfl, rfl, rfl, by decide, rfl, rfl, by decide⟩

/-- C1 (amended): when additionally every routing entry's block decodes to a
non-empty sequence whose keys lie in [its startRva, the next entry's
startRva), the lookup is the exact global floor: it misses precisely when
every stored key exceeds the query, and otherwise returns a value paired with
the greatest stored key ≤ the query (hence exact hits on stored keys, the
lower neighbour between two stored keys, and a miss below the minimum). -/
theorem C1_floor_amended (st0 st : RvaIndexLookup) (f1 b : List Nat)
    (blocks : List DecodedBlock) (q : Nat)
    (hload : Load st0 (some f1) (some b) = (true, st))
    (hcov : CoveredBlocks st.index1Entries b blocks) :
    ((∀ p ∈ allPairs blocks, q < p.1) →
      (FindClosestLowerOrEqualLine st q false).found = false ∧
      (FindClosestLowerOrEqualLine st q false).outLine = none) ∧
    (∀ p0 ∈ allPairs blocks, p0.1 ≤ q →
      ∃ k v, (FindClosestLowerOrEqualLine st q false).found = true ∧
        (FindClosestLowerOrEqualLine st q false).outLine = some v ∧
        (k, v) ∈ allPairs blocks ∧ k ≤ q ∧
        ∀ p2 ∈ allPairs blocks, p2.1 ≤ q → p2.1 ≤ k) := by
  obtain ⟨es, hp, hbc, hstq⟩ := load_true_elim hload
  obtain ⟨f1x, hf1x, hteq, hne, hsort⟩ := parse_ok_elim hp
  have hent : st.index1Entries = es := by rw [hstq]
  have hopen : st.index2Open = some b := by rw [hstq]
  have hcache : st.cachedBlock = none := by rw [hstq]
  have hcOK : CacheOK st := by
    simp only [CacheOK, hcache]
  obtain ⟨hfd, hout, -, -, -, -⟩ := find_spec hopen hcOK q
  have hmain := findPure_floor st.index1Entries b blocks q
    (by rw [hent]; exact hne) (by rw [hent]; exact hsort) hcov
  constructor
  · intro hall
    have h2 := hmain.1 hall
    exact ⟨by rw [hfd, h2], by rw [hout, h2]⟩
  · intro p0 hp0 hle
    obtain ⟨k, v, heq, hkmem, hkle, hmax⟩ := hmain.2 p0 hp0 hle
    exact ⟨k, v, by rw [hfd, heq], by rw [hout, heq], hkmem, hkle, hmax⟩

/-- C1 witness: on the good pair, whose blocks satisfy the coverage
discipline, the query 150 returns the value of the greatest stored key ≤ 150
(namely 100 ↦ 10). -/
theorem C1_floor_amended_witness :
    CoveredBlocks loadedGood.index1Entries goodI2 goodBlocks ∧
    ∃ k v, (FindClosestLowerOrEqualLine loadedGood 150 false).found = true ∧
      (FindClosestLowerOrEqualLine loadedGood 150 false).outLine = some v ∧
      (k, v) ∈ allPairs goodBlocks ∧ k ≤ 150 ∧
      ∀ p2 ∈ allPairs goodBlocks, p2.1 ≤ 150 → p2.1 ≤ k := by
  have hcov : CoveredBlocks loadedGood.index1Entries goodI2 goodBlocks := by
    refine ⟨by decide, ?_, ?_, ?_, ?_⟩
    · intro i hi
      have hi2 : i < 2 := hi
      interval_cases i <;> rfl
    · intro i hi
      have hi2 : i < 2 := hi
      interval_cases i <;> decide
    · intro i hi
      have hi2 : i < 2 := hi
      interval_cases i <;> decide
    · intro i hi
      have hi2 : i < 1 := by
        have hi3 : i + 1 < 2 := hi
        omega
      interval_cases i
      decide
  exact ⟨hcov, (C1_floor_amended resetState loadedGood goodI1 goodI2 goodBlocks
    150 rfl hcov).2 (100, 10) (by decide) (by decide)⟩

/-- C2 counterexample: the query 60 routes to block 1 (startRva 50), every
decoded key there exceeds 60, and block 1 is not the first block — yet the
lookup returns a miss, because the previous block decodes to no records and
so has no last value.  The claim as stated promises the previous block's last
value in this situation. -/
theorem C2_counterexample :
    (Load resetState (some c2I1) (some c2I2)).1 = true ∧
    upperBoundIdx (loadedC2.index1Entries.map (·.startRva)) 60 - 1 = 1 ∧
    LoadDecodedBlockPure loadedC2.index1Entries c2I2 1 = Except.ok ⟨[100], [5]⟩ ∧
    (∀ r ∈ ([100] : List Nat), 60 < r) ∧
    (1 : Nat) ≠ 0 ∧
    (FindClosestLowerOrEqualLine loadedC2 60 false).found = false ∧
    (FindClosestLowerOrEqualLine loadedC2 60 false).outLine = none := by
  exact ⟨rfl, rfl, rfl, by decide, by decide, rfl, rfl⟩

/-- C2 (amended): when the candidate block's decoded keys all exceed the
query, the lookup returns not-found if the candidate is the first block;
otherwise it decodes the previous block and returns its last value — unless
the previous block fails to decode or is empty, in which case it returns
not-found. -/
theorem C2_boundary_fallback_amended (st0 st : RvaIndexLookup)
    (f1 b : List Nat) (q : Nat) (Bj : DecodedBlock)
    (hload : Load st0 (some f1) (some b) = (true, st))
    (hq : ¬ q < (st.index1Entries.headD dE).startRva)
    (hdecj : LoadDecodedBlockPure st.index1Entries b
      (upperBoundIdx (st.index1Entries.map (·.startRva)) q - 1) = Except.ok Bj)
    (hall : ∀ r ∈ Bj.rvas, q < r) :
    (upperBoundIdx (st.index1Entries.map (·.startRva)) q - 1 = 0 →
      (FindClosestLowerOrEqualLine st q false).found = false ∧
      (FindClosestLowerOrEqualLine st q false).outLine = none) ∧
    (upperBoundIdx (st.index1Entries.map (·.startRva)) q - 1 ≠ 0 →
      match LoadDecodedBlockPure st.index1Entries b
          (upperBoundIdx (st.index1Entries.map (·.startRva)) q - 1 - 1) with
      | Except.ok prev =>
        match prev.lines.getLast? with
        | some v => (FindClosestLowerOrEqualLine st q false).found = true ∧
            (FindClosestLowerOrEqualLine st q false).outLine = some v
        | none => (FindClosestLowerOrEqualLine st q false).found = false ∧
            (FindClosestLowerOrEqualLine st q false).outLine = none
      | Except.error _ => (FindClosestLowerOrEqualLine st q false).found = false ∧
          (FindClosestLowerOrEqualLine st q false).outLine = none) := by
  obtain ⟨es, hp, hbc, hstq⟩ := load_true_elim hload
  obtain ⟨f1x, hf1x, hteq, hne, hsort⟩ := parse_ok_elim hp
  have hent : st.index1Entries = es := by rw [hstq]
  have hopen : st.index2Open = some b := by rw [hstq]
  have hcache : st.cachedBlock = none := by rw [hstq]
  have hcOK : CacheOK st := by
    simp only [CacheOK, hcache]
  obtain ⟨hfd, hout, -, -, -, -⟩ := find_spec hopen hcOK q
  obtain ⟨e0, rest, hE⟩ : ∃ e t, st.index1Entries = e :: t := by
    rw [hent]
    rcases es with _ | ⟨e, t⟩
    · exact absurd rfl hne
    · exact ⟨e, t, rfl⟩
  have hq0 : ¬ q < e0.startRva := by
    rw [hE] at hq
    simpa using hq
  have hune : upperBoundIdx ((e0 :: rest).map (·.startRva)) q ≠ 0 := by
    rw [List.map_cons]
    exact ub_pos_of_head_le hq0
  rw [hE] at hdecj hfd hout
  rw [hE]
  have hfloor : floorInBlock Bj q = none := floorInBlock_none_of_all hall
  by_cases hj0 : upperBoundIdx ((e0 :: rest).map (·.startRva)) q - 1 = 0
  · refine ⟨fun _ => ?_, fun hj0' => absurd hj0 hj0'⟩
    have hval : findPure (e0 :: rest) b q = (false, none) := by
      rw [findPure.eq_def]
      dsimp only
      rw [if_neg hq0, if_neg hune, hdecj]
      dsimp only
      rw [hfloor]
      dsimp only
      rw [if_pos hj0]
    exact ⟨by rw [hfd, hval], by rw [hout, hval]⟩
  · refine ⟨fun hj0' => absurd hj0' hj0, fun _ => ?_⟩
    rcases hp2 : LoadDecodedBlockPure (e0 :: rest) b
        (upperBoundIdx ((e0 :: rest).map (·.startRva)) q - 1 - 1) with msg | prev
    · have hval : findPure (e0 :: rest) b q = (false, none) := by
        rw [findPure.eq_def]
        dsimp only
        rw [if_neg hq0, if_neg hune, hdecj]
        dsimp only
        rw [hfloor]
        dsimp only
        rw [if_neg hj0, hp2]
      exact ⟨by rw [hfd, hval], by rw [hout, hval]⟩
    · dsimp only
      rcases hl : prev.lines.getLast? with _ | v
      · have hval : findPure (e0 :: rest) b q = (false, none) := by
          rw [findPure.eq_def]
          dsimp only
          rw [if_neg hq0, if_neg hune, hdecj]
          dsimp only
          rw [hfloor]
          dsimp only
          rw [if_neg hj0, hp2]
          dsimp only
          rw [hl]
        exact ⟨by rw [hfd, hval], by rw [hout, hval]⟩
      · have hval : findPure (e0 :: rest) b q = (true, some v) := by
          rw [findPure.eq_def]
          dsimp only
          rw [if_neg hq0, if_neg hune, hdecj]
          dsimp only
          rw [hfloor]
          dsimp only
          rw [if_neg hj0, hp2]
          dsimp only
          rw [hl]
        exact ⟨by rw [hfd, hval], by rw [hout, hval]⟩

/-- C2 witness: on the good pair the query 1002 routes to block 1 (routing
key 1000) whose smallest key 1005 exceeds it; the lookup returns the previous
block's last value 20, not a miss. -/
theorem C2_boundary_fallback_amended_witness :
    (FindClosestLowerOrEqualLine loadedGood 1002 false).found = true ∧
    (FindClosestLowerOrEqualLine loadedGood 1002 false).outLine = some 20 := by
  have h := (C2_boundary_fallback_amended resetState loadedGood goodI1 goodI2
    1002 ⟨[1005, 1105], [30, 40]⟩ rfl (by decide) rfl (by decide)).2 (by decide)
  exact h

end RvaIdx
